import Mathlib

/-!
Verification development for a C1-language recognizer consisting of a
logos-based tokenizer (`lexer.rs`) with a mark/undo replay buffer and a
recursive-descent recognizer (`parser.rs`).

The development embeds, faithfully to the source:
  * the token classification performed by the `logos` attributes on `C1Token`
    (maximal munch over all declared patterns, priority tie-breaks),
  * the replay buffer `C1Lexer` with `mark` / `undo` / `pop_mark` / `advance`,
  * the recognizer `C1Parser` with all its grammar-rule operations.

Machine integers (`usize`) are modelled as `Nat`; the two `usize`
subtractions that can underflow in the source (`position - 1` in `mark`,
`marks -= 1` in `pop_mark`) and the two `unwrap` calls in diagnostic
formatting are instrumented with a `panicked` flag that records exactly
when the source would panic.  Recursion is bounded by explicit fuel; fuel
exhaustion is the dedicated result `PRes.oot`, which is propagated and
never conflated with the source's own success or failure.
-/

/-- The token kinds of `C1Token` in `lexer.rs`, including the skipped and
error variants declared there. -/
inductive C1Token where
  | kwBoolean | kwDo | kwElse | kwFloat | kwFor | kwIf | kwInt | kwPrintf
  | kwReturn | kwVoid | kwWhile
  | plus | minus | asterisk | slash
  | assign | equal | notEqual | less | greater | lessEqual | greaterEqual
  | opAnd | opOr | comma | semicolon
  | leftParenthesis | rightParenthesis | leftBrace | rightBrace
  | constInt | constFloat | constBoolean | constString | identifier
  | cComment | cppComment | whitespace | linebreak
  | err
  deriving DecidableEq, Repr

/-- A raw lexical unit as produced by the logos layer: variant plus the
matched slice.  Skipped variants (`CComment`, `CPPComment`, `Whitespace`)
never appear in the stream handed to `C1Lexer`; `Linebreak` does. -/
structure RawTok where
  typ : C1Token
  text : String
  deriving DecidableEq, Repr

/-- Length of the longest prefix of `cs` whose characters all satisfy `p`. -/
def takeWhileLen (p : Char → Bool) : List Char → Nat
  | [] => 0
  | c :: cs => if p c then takeWhileLen p cs + 1 else 0

/-- Longest match of a fixed `#[token("...")]` literal: the literal's length
when it is a prefix of the input. -/
def matchLit (lit : List Char) (cs : List Char) : Option Nat :=
  if lit.isPrefixOf cs then some lit.length else none

/-- Longest match of `[0-9]+` (`ConstInt`). -/
def matchConstInt (cs : List Char) : Option Nat :=
  let n := takeWhileLen (fun c => c.isDigit) cs
  if n = 0 then none else some n

/-- Length matched by `[eE]([-+])?\d+` (the exponent part of a float),
if present. -/
def matchExponent (cs : List Char) : Option Nat :=
  match cs with
  | c :: rest =>
    if c = 'e' ∨ c = 'E' then
      match rest with
      | d :: rest' =>
        if d = '+' ∨ d = '-' then
          let n := takeWhileLen (fun c => c.isDigit) rest'
          if n = 0 then none else some (2 + n)
        else
          let n := takeWhileLen (fun c => c.isDigit) rest
          if n = 0 then none else some (1 + n)
      | [] => none
    else none
  | [] => none

/-- Longest match of the first float branch `\d+\.\d+`. -/
def matchFloatA (cs : List Char) : Option Nat :=
  let n1 := takeWhileLen (fun c => c.isDigit) cs
  if n1 = 0 then none else
    match cs.drop n1 with
    | '.' :: rest =>
      let n2 := takeWhileLen (fun c => c.isDigit) rest
      if n2 = 0 then none else some (n1 + 1 + n2)
    | _ => none

/-- Longest match of the second float branch `\.\d+([eE]([-+])?\d+)?`. -/
def matchFloatB (cs : List Char) : Option Nat :=
  match cs with
  | '.' :: rest =>
    let n := takeWhileLen (fun c => c.isDigit) rest
    if n = 0 then none else
      match matchExponent (rest.drop n) with
      | some e => some (1 + n + e)
      | none => some (1 + n)
  | _ => none

/-- Longest match of the third float branch `\d+[eE]([-+])?\d+`. -/
def matchFloatC (cs : List Char) : Option Nat :=
  let n := takeWhileLen (fun c => c.isDigit) cs
  if n = 0 then none else
    match matchExponent (cs.drop n) with
    | some e => some (n + e)
    | none => none

/-- Larger of two optional match lengths. -/
def maxOpt (a b : Option Nat) : Option Nat :=
  match a, b with
  | none, b => b
  | a, none => a
  | some m, some n => some (max m n)

/-- Longest match of the `ConstFloat` regex
`(\d+\.\d+)|(\.\d+([eE]([-+])?\d+)?)|(\d+[eE]([-+])?\d+)`. -/
def matchConstFloat (cs : List Char) : Option Nat :=
  maxOpt (matchFloatA cs) (maxOpt (matchFloatB cs) (matchFloatC cs))

/-- Longest match of `true|false` (`ConstBoolean`). -/
def matchConstBoolean (cs : List Char) : Option Nat :=
  maxOpt (matchLit ['t', 'r', 'u', 'e'] cs) (matchLit ['f', 'a', 'l', 's', 'e'] cs)

/-- Longest match of `"[^\n"]*"` (`ConstString`). -/
def matchConstString (cs : List Char) : Option Nat :=
  match cs with
  | '"' :: rest =>
    let n := takeWhileLen (fun c => ¬ (c = '\n' ∨ c = '"')) rest
    match rest.drop n with
    | '"' :: _ => some (n + 2)
    | _ => none
  | _ => none

/-- Longest match of `[a-zA-Z]+[0-9a-zA-Z]*` (`Identifier`).  Since letters
are alphanumeric, the longest overall match is one letter followed by the
longest alphanumeric run. -/
def matchIdentifier (cs : List Char) : Option Nat :=
  match cs with
  | c :: rest =>
    if c.isAlpha then some (1 + takeWhileLen (fun d => d.isAlpha ∨ d.isDigit) rest)
    else none
  | [] => none

/-- Longest match of the block-comment regex `/\*[^\*/]*\*/` (`CComment`).
Note the character class excludes the individual characters `*` and `/`,
so the comment body may contain neither. -/
def matchCComment (cs : List Char) : Option Nat :=
  match cs with
  | '/' :: '*' :: rest =>
    let n := takeWhileLen (fun c => ¬ (c = '*' ∨ c = '/')) rest
    match rest.drop n with
    | '*' :: '/' :: _ => some (n + 4)
    | _ => none
  | _ => none

/-- Longest match of the line-comment regex `//[^\n]*(\n)?` (`CPPComment`);
the optional terminating newline is part of the match. -/
def matchCPPComment (cs : List Char) : Option Nat :=
  match cs with
  | '/' :: '/' :: rest =>
    let n := takeWhileLen (fun c => ¬ c = '\n') rest
    match rest.drop n with
    | '\n' :: _ => some (n + 3)
    | _ => some (n + 2)
  | _ => none

/-- Longest match of `[ \t\f]+` (`Whitespace`). -/
def matchWhitespace (cs : List Char) : Option Nat :=
  let n := takeWhileLen (fun c => c = ' ' ∨ c = '\t' ∨ c = '\x0c') cs
  if n = 0 then none else some n

/-- Longest match of `(\r\n|\r|\n)` (`Linebreak`). -/
def matchLinebreak (cs : List Char) : Option Nat :=
  match cs with
  | '\r' :: '\n' :: _ => some 2
  | '\r' :: _ => some 1
  | '\n' :: _ => some 1
  | _ => none

/-- All token patterns of `C1Token`, ordered so that on equal match length
the earlier entry wins, reflecting logos's priorities: fixed `#[token]`
literals and the keyword-length `true|false` pattern beat `Identifier`,
which is listed last.  (All other pattern pairs can never tie in length.) -/
def patternList : List (C1Token × (List Char → Option Nat)) :=
  [ (C1Token.kwBoolean, matchLit ['b', 'o', 'o', 'l']),
    (C1Token.kwDo, matchLit ['d', 'o']),
    (C1Token.kwElse, matchLit ['e', 'l', 's', 'e']),
    (C1Token.kwFloat, matchLit ['f', 'l', 'o', 'a', 't']),
    (C1Token.kwFor, matchLit ['f', 'o', 'r']),
    (C1Token.kwIf, matchLit ['i', 'f']),
    (C1Token.kwInt, matchLit ['i', 'n', 't']),
    (C1Token.kwPrintf, matchLit ['p', 'r', 'i', 'n', 't', 'f']),
    (C1Token.kwReturn, matchLit ['r', 'e', 't', 'u', 'r', 'n']),
    (C1Token.kwVoid, matchLit ['v', 'o', 'i', 'd']),
    (C1Token.kwWhile, matchLit ['w', 'h', 'i', 'l', 'e']),
    (C1Token.plus, matchLit ['+']),
    (C1Token.minus, matchLit ['-']),
    (C1Token.asterisk, matchLit ['*']),
    (C1Token.slash, matchLit ['/']),
    (C1Token.assign, matchLit ['=']),
    (C1Token.equal, matchLit ['=', '=']),
    (C1Token.notEqual, matchLit ['!', '=']),
    (C1Token.less, matchLit ['<']),
    (C1Token.greater, matchLit ['>']),
    (C1Token.lessEqual, matchLit ['<', '=']),
    (C1Token.greaterEqual, matchLit ['>', '=']),
    (C1Token.opAnd, matchLit ['&', '&']),
    (C1Token.opOr, matchLit ['|', '|']),
    (C1Token.comma, matchLit [',']),
    (C1Token.semicolon, matchLit [';']),
    (C1Token.leftParenthesis, matchLit ['(']),
    (C1Token.rightParenthesis, matchLit [')']),
    (C1Token.leftBrace, matchLit ['\x7b']),
    (C1Token.rightBrace, matchLit ['\x7d']),
    (C1Token.constBoolean, matchConstBoolean),
    (C1Token.constInt, matchConstInt),
    (C1Token.constFloat, matchConstFloat),
    (C1Token.constString, matchConstString),
    (C1Token.cComment, matchCComment),
    (C1Token.cppComment, matchCPPComment),
    (C1Token.whitespace, matchWhitespace),
    (C1Token.linebreak, matchLinebreak),
    (C1Token.identifier, matchIdentifier) ]

/-- Fold step keeping the strictly longest match; ties keep the earlier
(higher-priority) candidate. -/
def pickBetter (a : Option (C1Token × Nat)) (t : C1Token) (r : Option Nat) :
    Option (C1Token × Nat) :=
  match r with
  | none => a
  | some n =>
    match a with
    | none => some (t, n)
    | some (t0, n0) => if n0 < n then some (t, n) else some (t0, n0)

/-- The maximal-munch winner over all patterns at the head of `cs`. -/
def bestMatch (cs : List Char) : Option (C1Token × Nat) :=
  patternList.foldl (fun a p => pickBetter a p.1 (p.2 cs)) none

/-- Whether a variant carries `logos::skip` in the source: such a match is
discarded and the scan continues. -/
def isSkip (t : C1Token) : Bool :=
  t = C1Token.cComment ∨ t = C1Token.cppComment ∨ t = C1Token.whitespace

/-- One scan step: the emitted raw token (none for a skipped match) and the
number of characters consumed (on no match, logos's error token consumes
one character). -/
def scanStep (cs : List Char) : Option RawTok × Nat :=
  match bestMatch cs with
  | some (t, n) =>
    if isSkip t then (none, n) else (some ⟨t, (cs.take n).asString⟩, n)
  | none => (some ⟨C1Token.err, (cs.take 1).asString⟩, 1)

/-- Fuelled raw-token scan of the whole input. -/
def rawScan (fuel : Nat) (cs : List Char) : List RawTok :=
  match fuel with
  | 0 => []
  | Nat.succ fuel =>
    match cs with
    | [] => []
    | c :: cs' =>
      match scanStep (c :: cs') with
      | (some r, n) => r :: rawScan fuel ((c :: cs').drop (max n 1))
      | (none, n) => rawScan fuel ((c :: cs').drop (max n 1))

/-- The raw token stream of a source text: what the logos lexer yields to
`C1Lexer`, in order (skipped variants removed, `Linebreak` kept). -/
def tokenizeStr (s : String) : List RawTok :=
  rawScan s.data.length s.data

/-- The data stored for one buffered token: variant, exact text, and the
1-based line number assigned when it was pulled (`TokenData` in the
source). -/
structure TokenData where
  token_type : C1Token
  token_text : String
  token_line : Nat
  deriving DecidableEq, Repr

/-- Placeholder used for the guarded `Vec` index in `advance`; the source
index is always in bounds when read. -/
def dummyTok : TokenData := ⟨C1Token.err, "", 0⟩

/-- The state of `C1Lexer`: the remaining logos stream, the line counter,
the current token, the replay buffer `past`, the open-mark count and the
replay cursor.  `panicked` records whether any operation reached a state
in which the Rust source would panic (usize underflow or `unwrap` of
`None`); every operation below otherwise mirrors the source exactly. -/
structure C1Lexer where
  upstream : List RawTok
  logos_line_number : Nat
  current_token : Option TokenData
  past : List TokenData
  marks : Nat
  position : Nat
  panicked : Bool
  deriving DecidableEq, Repr

/-- The recursion inside `next_token_lexer`: skip `Linebreak` items,
incrementing the line counter, until a real token or the end of the
stream is reached.  Returns the pulled token data (line number attached),
the rest of the stream, and the updated line counter. -/
def pullToken : Nat → List RawTok → Option TokenData × List RawTok × Nat
  | line, [] => (none, [], line)
  | line, r :: rest =>
    if r.typ = C1Token.linebreak then pullToken (line + 1) rest
    else (some ⟨r.typ, r.text, line⟩, rest, line)

/-- `C1Lexer::next_token_lexer`: pull the next non-linebreak token from the
logos stream; push it onto `past` when at least one mark is open; set
`position` to `past.len()` (or `past.len() + 1` at end of input). -/
def next_token_lexer (s : C1Lexer) : Option TokenData × C1Lexer :=
  match pullToken s.logos_line_number s.upstream with
  | (none, up', line') =>
    (none, { s with upstream := up', logos_line_number := line',
                    position := s.past.length + 1 })
  | (some td, up', line') =>
    if 0 < s.marks then
      (some td, { s with upstream := up', logos_line_number := line',
                         past := s.past ++ [td],
                         position := s.past.length + 1 })
    else
      (some td, { s with upstream := up', logos_line_number := line',
                         position := s.past.length })

/-- `C1Lexer::advance`: replay from `past` when the cursor is inside it,
else pull from the logos stream; then, with no open marks and the cursor
at or past the end of a non-empty buffer, release the buffer. -/
def advance (s : C1Lexer) : C1Lexer :=
  if s.past.length ≤ s.position then
    let (next, s1) := next_token_lexer s
    let s2 := if s1.marks = 0 ∧ s1.past.length ≤ s1.position ∧ s1.past.length ≠ 0
      then { s1 with past := [], position := 0 } else s1
    { s2 with current_token := next }
  else
    let next := s.past.getD s.position dummyTok
    let s1 := { s with position := s.position + 1 }
    let s2 := if s1.marks = 0 ∧ s1.past.length ≤ s1.position ∧ s1.past.length ≠ 0
      then { s1 with past := [], position := 0 } else s1
    { s2 with current_token := some next }

/-- `C1Lexer::mark`: increment the open-mark count; on the transition from
zero marks, reseed `past` with the current token (when there is one) and
set the cursor to 1; return `position - 1`.  The source computes this with
`usize` subtraction, which panics when `position` is 0; the flag records
that case. -/
def mark (s : C1Lexer) : Nat × C1Lexer :=
  let s1 := { s with marks := s.marks + 1 }
  let s2 :=
    if s1.marks = 1 then
      match s1.current_token with
      | some t => { s1 with past := [t], position := 1 }
      | none => s1
    else s1
  (s2.position - 1, { s2 with panicked := s2.panicked || decide (s2.position = 0) })

/-- `C1Lexer::undo`: reset the cursor to the marker and advance. -/
def undo (marker : Nat) (s : C1Lexer) : C1Lexer :=
  advance { s with position := marker }

/-- `C1Lexer::pop_mark`: decrement the open-mark count (`usize`
subtraction; panics at 0, recorded in the flag). -/
def pop_mark (s : C1Lexer) : C1Lexer :=
  { s with marks := s.marks - 1, panicked := s.panicked || decide (s.marks = 0) }

/-- `C1Lexer::current_token()` (the accessor): the variant of the current
token. -/
def currentTokenType (s : C1Lexer) : Option C1Token :=
  s.current_token.map TokenData.token_type

/-- `C1Lexer::current_text()`. -/
def currentText (s : C1Lexer) : Option String :=
  s.current_token.map TokenData.token_text

/-- `C1Lexer::current_line_number()`. -/
def currentLineNumber (s : C1Lexer) : Option Nat :=
  s.current_token.map TokenData.token_line

/-- `C1Lexer::new`: initial state followed by one `advance`. -/
def C1Lexer.new (up : List RawTok) : C1Lexer :=
  advance { upstream := up, logos_line_number := 1, current_token := none,
            past := [], marks := 0, position := 0, panicked := false }

/-- Result of a recognizer operation: the source's
`ParseResult = Result<(), String>` plus the fuel-exhaustion marker
`oot`, which never occurs in the source and is propagated unchanged. -/
inductive PRes where
  | ok
  | fail (msg : String)
  | oot
  deriving DecidableEq, Repr

/-- Rust's `and_then` on `ParseResult` paired with state threading. -/
def pbind (x : PRes × C1Lexer) (f : C1Lexer → PRes × C1Lexer) : PRes × C1Lexer :=
  match x with
  | (PRes.ok, s) => f s
  | other => other

/-- Rust's `or_else` on `ParseResult` paired with state threading; the
handler receives the error message. -/
def porElse (x : PRes × C1Lexer) (f : String → C1Lexer → PRes × C1Lexer) :
    PRes × C1Lexer :=
  match x with
  | (PRes.fail e, s) => f e s
  | other => other

/-- Rust's `map_err` appending to the diagnostic. -/
def pmapErr (x : PRes × C1Lexer) (g : String → String) : PRes × C1Lexer :=
  match x with
  | (PRes.fail e, s) => (PRes.fail (g e), s)
  | other => other

/-- `C1Parser::current_matches`. -/
def current_matches (t : C1Token) (s : C1Lexer) : Bool :=
  match currentTokenType s with
  | none => false
  | some c => c = t

/-- The diagnostic built by `check_and_eat_token` and `any_match_and_eat`
for a present token (the `format!` call in the source; `{:?}` on `usize`
prints the digits). -/
def unexpectedMsg (reason : String) (ln : Nat) (tx : String) : String :=
  "Unexpected token: " ++ reason ++ " \n at line " ++ Nat.repr ln ++
    " while trying to parse: " ++ "\x27" ++ tx ++ "\x27"

/-- `C1Parser::check_and_eat_token`.  The source `unwrap`s
`current_line_number()` and `current_text()` in the `Some` arm; the
defensive inner match records a panic if they were ever `None` there. -/
def check_and_eat_token (t : C1Token) (reason : String) (s : C1Lexer) :
    PRes × C1Lexer :=
  if current_matches t s then (PRes.ok, advance s)
  else
    match s.current_token with
    | none => (PRes.fail (reason ++ ". Reached EOF"), s)
    | some _ =>
      match currentLineNumber s, currentText s with
      | some ln, some tx => (PRes.fail (unexpectedMsg reason ln tx), s)
      | _, _ => (PRes.fail "", { s with panicked := true })

/-- The short-circuiting `iter().any(...)` inside `any_match_and_eat`:
each failing `check_and_eat_token` attempt leaves the state unchanged,
the first matching one consumes the token. -/
def any_eat_loop : List C1Token → C1Lexer → Bool × C1Lexer
  | [], s => (false, s)
  | t :: ts, s =>
    match check_and_eat_token t "" s with
    | (PRes.ok, s') => (true, s')
    | (_, s') => any_eat_loop ts s'

/-- `C1Parser::any_match_and_eat`. -/
def any_match_and_eat (toks : List C1Token) (reason : String) (s : C1Lexer) :
    PRes × C1Lexer :=
  match any_eat_loop toks s with
  | (true, s') => (PRes.ok, s')
  | (false, s') =>
    match s'.current_token with
    | none => (PRes.fail (reason ++ ". Reached EOF"), s')
    | some _ =>
      match currentLineNumber s', currentText s' with
      | some ln, some tx => (PRes.fail (unexpectedMsg reason ln tx), s')
      | _, _ => (PRes.fail "", { s' with panicked := true })

/-- `C1Parser::functioncall` (no recursion, hence no fuel). -/
def functioncall (s : C1Lexer) : PRes × C1Lexer :=
  pmapErr
    (pbind (check_and_eat_token C1Token.identifier "Expected <ID>" s) (fun s =>
      pbind (check_and_eat_token C1Token.leftParenthesis "Expected \"(\"" s) (fun s =>
        check_and_eat_token C1Token.rightParenthesis "Expected \")\"" s)))
    (fun e => e ++ ", in functioncall")

/-- `C1Parser::p_type`. -/
def p_type (s : C1Lexer) : PRes × C1Lexer :=
  any_match_and_eat
    [C1Token.kwBoolean, C1Token.kwFloat, C1Token.kwInt, C1Token.kwVoid]
    "Expected type" s

/-- One generic zero-or-more repetition loop as in `statementlist`,
`simpexpr` and `term`: attempt the sub-rule; on success `pop_mark` and
take a fresh mark; on failure stop, handing back the last marker.  Fuel
bounds the number of iterations. -/
def rep_loop (fuel : Nat) (attempt : C1Lexer → PRes × C1Lexer) (m : Nat)
    (s : C1Lexer) : PRes × Nat × C1Lexer :=
  match fuel with
  | 0 => (PRes.oot, m, s)
  | Nat.succ fuel =>
    match attempt s with
    | (PRes.ok, s') =>
      let s'' := pop_mark s'
      let (m', s3) := mark s''
      rep_loop fuel attempt m' s3
    | (PRes.oot, s') => (PRes.oot, m, s')
    | (PRes.fail _, s') => (PRes.ok, m, s')

/-- The relational operators tried by `expr`. -/
def relops : List C1Token :=
  [C1Token.equal, C1Token.notEqual, C1Token.lessEqual, C1Token.greaterEqual,
   C1Token.less, C1Token.greater]

mutual

/-- `C1Parser::program`: `while let Some(_) = current_token { function_definition()? }`. -/
def program (fuel : Nat) (s : C1Lexer) : PRes × C1Lexer :=
  match fuel with
  | 0 => (PRes.oot, s)
  | Nat.succ fuel =>
    match currentTokenType s with
    | none => (PRes.ok, s)
    | some _ =>
      match function_definition fuel s with
      | (PRes.ok, s') => program fuel s'
      | other => other

/-- `C1Parser::function_definition`. -/
def function_definition (fuel : Nat) (s : C1Lexer) : PRes × C1Lexer :=
  match fuel with
  | 0 => (PRes.oot, s)
  | Nat.succ fuel =>
    pmapErr
      (pbind (p_type s) (fun s =>
        pbind (check_and_eat_token C1Token.identifier "Expected function name" s) (fun s =>
          pbind (check_and_eat_token C1Token.leftParenthesis "Expected \"(\"" s) (fun s =>
            pbind (check_and_eat_token C1Token.rightParenthesis "Expected \")\"" s) (fun s =>
              pbind (check_and_eat_token C1Token.leftBrace "Expected \"\x7b\"" s) (fun s =>
                pbind (statementlist fuel s) (fun s =>
                  check_and_eat_token C1Token.rightBrace "Expected \"\x7d\"" s)))))))
      (fun e => e ++ ", in function definition")

/-- `C1Parser::statementlist`: zero-or-more `block` under the mark
discipline of the source's `while let Ok(_)` loop. -/
def statementlist (fuel : Nat) (s : C1Lexer) : PRes × C1Lexer :=
  match fuel with
  | 0 => (PRes.oot, s)
  | Nat.succ fuel =>
    let (m, s) := mark s
    match rep_loop fuel (fun s => block fuel s) m s with
    | (PRes.ok, m', s') => (PRes.ok, pop_mark (undo m' s'))
    | (r, _, s') => (r, s')

/-- `C1Parser::block`: `"{" statementlist "}"` or, after `undo`, a single
`statement`; the mark is popped on every exit path. -/
def block (fuel : Nat) (s : C1Lexer) : PRes × C1Lexer :=
  match fuel with
  | 0 => (PRes.oot, s)
  | Nat.succ fuel =>
    let (m, s) := mark s
    let res :=
      porElse
        (pbind (check_and_eat_token C1Token.leftBrace "Expected \"\x7b\"" s) (fun s =>
          pbind (statementlist fuel s) (fun s =>
            check_and_eat_token C1Token.rightBrace "Expected \"\x7d\"" s)))
        (fun _ s => statement fuel (undo m s))
    (res.1, pop_mark res.2)

/-- `C1Parser::statement`: the five-way ordered alternation, each later
alternative starting with `undo` to the mark taken at entry. -/
def statement (fuel : Nat) (s : C1Lexer) : PRes × C1Lexer :=
  match fuel with
  | 0 => (PRes.oot, s)
  | Nat.succ fuel =>
    let (m, s) := mark s
    let res :=
      porElse
        (porElse
          (porElse
            (porElse (ifstatement fuel s)
              (fun _ s =>
                pbind (returnstatement fuel (undo m s)) (fun s =>
                  check_and_eat_token C1Token.semicolon
                    "Expected semicolon after return statement" s)))
            (fun _ s =>
              pbind (printf fuel (undo m s)) (fun s =>
                check_and_eat_token C1Token.semicolon
                  "Expected semicolon after printf" s)))
          (fun _ s =>
            pbind (statassignment fuel (undo m s)) (fun s =>
              check_and_eat_token C1Token.semicolon
                "Expected semicolon after stat assignment" s)))
        (fun _ s =>
          pbind (functioncall (undo m s)) (fun s =>
            check_and_eat_token C1Token.semicolon
              "Expected semicolon after function call" s))
    (res.1, pop_mark res.2)

/-- `C1Parser::ifstatement`. -/
def ifstatement (fuel : Nat) (s : C1Lexer) : PRes × C1Lexer :=
  match fuel with
  | 0 => (PRes.oot, s)
  | Nat.succ fuel =>
    pbind (check_and_eat_token C1Token.kwIf "Expected \"if\"" s) (fun s =>
      pbind (check_and_eat_token C1Token.leftParenthesis "Expected \"(\"" s) (fun s =>
        pbind (assignment fuel s) (fun s =>
          pbind (check_and_eat_token C1Token.rightParenthesis "Expected \")\"" s) (fun s =>
            block fuel s))))

/-- `C1Parser::returnstatement`: `"return"` then `let _ = assignment()`
(the optional assignment's result is discarded; fuel exhaustion inside it
is still propagated). -/
def returnstatement (fuel : Nat) (s : C1Lexer) : PRes × C1Lexer :=
  match fuel with
  | 0 => (PRes.oot, s)
  | Nat.succ fuel =>
    match check_and_eat_token C1Token.kwReturn "Expected \"return\"" s with
    | (PRes.ok, s) =>
      match assignment fuel s with
      | (PRes.oot, s') => (PRes.oot, s')
      | (_, s') => (PRes.ok, s')
    | other => other

/-- `C1Parser::printf`. -/
def printf (fuel : Nat) (s : C1Lexer) : PRes × C1Lexer :=
  match fuel with
  | 0 => (PRes.oot, s)
  | Nat.succ fuel =>
    pbind (check_and_eat_token C1Token.kwPrintf "Expected \"printf\"" s) (fun s =>
      pbind (check_and_eat_token C1Token.leftParenthesis "Expected \"(\"" s) (fun s =>
        pbind (assignment fuel s) (fun s =>
          check_and_eat_token C1Token.rightParenthesis "Expected \")\"" s)))

/-- `C1Parser::statassignment`. -/
def statassignment (fuel : Nat) (s : C1Lexer) : PRes × C1Lexer :=
  match fuel with
  | 0 => (PRes.oot, s)
  | Nat.succ fuel =>
    pbind (check_and_eat_token C1Token.identifier "Expected <ID>" s) (fun s =>
      pbind (check_and_eat_token C1Token.assign "Expected \"=\"" s) (fun s =>
        assignment fuel s))

/-- `C1Parser::assignment`: try `ID "=" assignment`, else `undo` and
`expr`; the mark is popped on every exit path. -/
def assignment (fuel : Nat) (s : C1Lexer) : PRes × C1Lexer :=
  match fuel with
  | 0 => (PRes.oot, s)
  | Nat.succ fuel =>
    let (m, s) := mark s
    let res :=
      porElse
        (pbind (check_and_eat_token C1Token.identifier "Expected \"<ID>\"" s) (fun s =>
          pbind (check_and_eat_token C1Token.assign "Expected \"=\"" s) (fun s =>
            assignment fuel s)))
        (fun _ s => expr fuel (undo m s))
    (res.1, pop_mark res.2)

/-- `C1Parser::expr`: `simpexpr` then the optional `relop simpexpr` tail
under a mark, undone on failure; always returns `Ok` after a successful
`simpexpr`. -/
def expr (fuel : Nat) (s : C1Lexer) : PRes × C1Lexer :=
  match fuel with
  | 0 => (PRes.oot, s)
  | Nat.succ fuel =>
    match simpexpr fuel s with
    | (PRes.ok, s) =>
      let (m, s) := mark s
      match pbind (any_match_and_eat relops "" s) (fun s => simpexpr fuel s) with
      | (PRes.ok, s') => (PRes.ok, pop_mark s')
      | (PRes.oot, s') => (PRes.oot, s')
      | (PRes.fail _, s') => (PRes.ok, pop_mark (undo m s'))
    | other => other

/-- `C1Parser::simpexpr`: optional `-` (result discarded, no mark), one
`term` (diagnostic extended with ", in simpexpr"), then the zero-or-more
`(+|-|pipes) term` loop under the mark discipline. -/
def simpexpr (fuel : Nat) (s : C1Lexer) : PRes × C1Lexer :=
  match fuel with
  | 0 => (PRes.oot, s)
  | Nat.succ fuel =>
    let s := (check_and_eat_token C1Token.minus "" s).2
    match pmapErr (term fuel s) (fun e => e ++ ", in simpexpr") with
    | (PRes.ok, s) =>
      let (m, s) := mark s
      match rep_loop fuel
          (fun s =>
            pbind (any_match_and_eat [C1Token.plus, C1Token.minus, C1Token.opOr] "" s)
              (fun s => term fuel s)) m s with
      | (PRes.ok, m', s') => (PRes.ok, pop_mark (undo m' s'))
      | (r, _, s') => (r, s')
    | other => other

/-- `C1Parser::term`: one `factor` (diagnostic extended with ", in term"),
then the zero-or-more `(*|/|&&) factor` loop under the mark discipline. -/
def term (fuel : Nat) (s : C1Lexer) : PRes × C1Lexer :=
  match fuel with
  | 0 => (PRes.oot, s)
  | Nat.succ fuel =>
    match pmapErr (factor fuel s) (fun e => e ++ ", in term") with
    | (PRes.ok, s) =>
      let (m, s) := mark s
      match rep_loop fuel
          (fun s =>
            pbind (any_match_and_eat [C1Token.asterisk, C1Token.slash, C1Token.opAnd] "" s)
              (fun s => factor fuel s)) m s with
      | (PRes.ok, m', s') => (PRes.ok, pop_mark (undo m' s'))
      | (r, _, s') => (r, s')
    | other => other

/-- `C1Parser::factor`: the six-way ordered alternation; the final
`or_else` rewinds to the entry mark and re-raises the last error, and the
mark is popped on every exit path. -/
def factor (fuel : Nat) (s : C1Lexer) : PRes × C1Lexer :=
  match fuel with
  | 0 => (PRes.oot, s)
  | Nat.succ fuel =>
    let (m, s) := mark s
    let res :=
      porElse
        (porElse
          (porElse
            (porElse
              (porElse (check_and_eat_token C1Token.constInt "" s)
                (fun _ s => check_and_eat_token C1Token.constFloat "" (undo m s)))
              (fun _ s => check_and_eat_token C1Token.constBoolean "" (undo m s)))
            (fun _ s => functioncall (undo m s)))
          (fun _ s => check_and_eat_token C1Token.identifier "" (undo m s)))
        (fun _ s =>
          pbind (check_and_eat_token C1Token.leftParenthesis "Expected <FACTOR>" (undo m s))
            (fun s =>
              pbind (assignment fuel s) (fun s =>
                check_and_eat_token C1Token.rightParenthesis "Expected \x27)\x27" s)))
    let res2 :=
      match res with
      | (PRes.fail e, s') => (PRes.fail e, undo m s')
      | other => other
    (res2.1, pop_mark res2.2)

end

/-- `C1Parser::initialize_parser` followed by `program`:
`C1Parser::parse` on a source text, with the given fuel. -/
def parse (fuel : Nat) (text : String) : PRes × C1Lexer :=
  program fuel (C1Lexer.new (tokenizeStr text))

/-- The tokens the logos stream will deliver from here on, with the line
numbers they will be assigned: the linebreak items are consumed (each
bumping the counter) and every other item is stamped with the counter's
value at that point. -/
def emitAll : Nat → List RawTok → List TokenData
  | _, [] => []
  | line, r :: rest =>
    if r.typ = C1Token.linebreak then emitAll (line + 1) rest
    else ⟨r.typ, r.text, line⟩ :: emitAll line rest

/-- The full token history the buffer can still reach: the replay buffer
followed by everything the logos stream will deliver. -/
def hist (s : C1Lexer) : List TokenData :=
  s.past ++ emitAll s.logos_line_number s.upstream

/-- The logical read position of the buffer: the current token followed by
everything that a run of `advance` calls would deliver after it.  Two
states with equal `future` are observationally identical to the
recognizer. -/
def future (s : C1Lexer) : List TokenData :=
  (match s.current_token with
   | none => []
   | some t => [t]) ++ s.past.drop s.position
    ++ emitAll s.logos_line_number s.upstream

/-- The coherence invariant of the buffer in the speculative regime (at
least one open mark): the cursor stays within the buffer plus one, the
current token is the buffered one at `position - 1`, and a cursor one
past the buffer means the stream is exhausted. -/
def Coh (s : C1Lexer) : Prop :=
  s.panicked = false ∧
  1 ≤ s.position ∧
  s.position ≤ s.past.length + 1 ∧
  (s.position ≤ s.past.length →
    s.current_token = some (s.past.getD (s.position - 1) dummyTok)) ∧
  (s.position = s.past.length + 1 →
    s.current_token = none ∧ emitAll s.logos_line_number s.upstream = [])

instance decidableCoh (s : C1Lexer) : Decidable (Coh s) := by
  unfold Coh
  infer_instance

/-- Validity of a checkpoint value: it points into the buffer, or exactly
at its end with the stream exhausted (a checkpoint taken at end of
input). -/
def Marker (m : Nat) (s : C1Lexer) : Prop :=
  m < s.past.length ∨
    (m = s.past.length ∧ emitAll s.logos_line_number s.upstream = [])

/-- What every recognizer operation preserves while marks are open: the
open-mark count, the reachable history, and the buffer only ever grows. -/
def Grows (s s' : C1Lexer) : Prop :=
  s'.marks = s.marks ∧ hist s' = hist s ∧ s.past.length ≤ s'.past.length

/-- Contract of a recognizer operation started at `s`: fuel exhaustion
leaves a non-panicked state with at least as many open marks; any genuine
source result (`ok` or `fail`) leaves a coherent state with the same
open-mark count and the same reachable history. -/
def RuleOk (s : C1Lexer) (r : PRes × C1Lexer) : Prop :=
  (r.1 = PRes.oot → r.2.panicked = false ∧ s.marks ≤ r.2.marks) ∧
  (r.1 ≠ PRes.oot → Coh r.2 ∧ Grows s r.2)

/-- Whether a character list contains the two-character sequence `*/`. -/
def hasCommentClose : List Char → Bool
  | '*' :: '/' :: _ => true
  | _ :: cs => hasCommentClose cs
  | [] => false

/-- Iterated `advance`. -/
def advanceN : Nat → C1Lexer → C1Lexer
  | 0, s => s
  | Nat.succ n, s => advance (advanceN n s)

def TopA (s : C1Lexer) : Prop :=
  s.panicked = false ∧ s.marks = 0 ∧ s.past = [] ∧
  ((s.position = 0 ∧ s.current_token ≠ none) ∨
   (s.position = 1 ∧ s.current_token = none ∧
     emitAll s.logos_line_number s.upstream = []))

instance decidableTopA (s : C1Lexer) : Decidable (TopA s) := by
  unfold TopA
  infer_instance

def TopB (s : C1Lexer) : Prop :=
  TopA s ∨
  (s.panicked = false ∧ s.marks = 0 ∧ s.past = [] ∧ s.position = 0 ∧
    s.current_token = none ∧ emitAll s.logos_line_number s.upstream = [])

def PostSL (s : C1Lexer) : Prop :=
  s.panicked = false ∧ s.marks = 0 ∧
  ((s.position = 1 ∧ 1 ≤ s.past.length ∧
     s.current_token = some (s.past.getD 0 dummyTok) ∧
     ((s.past.getD 0 dummyTok).token_type = C1Token.rightBrace →
       s.past.length = 1)) ∨
   (s.position = s.past.length + 1 ∧ s.current_token = none ∧
     emitAll s.logos_line_number s.upstream = []))

/-- C1 counterexample: in `returnstatement` the optional `assignment` is
attempted without a mark.  On the tokens of `"return -;"` the attempted
assignment fails (there is no term after the minus) yet consumes the
minus: after `"return"` is eaten the current token is the minus, but
after the whole `returnstatement` — which reports success — the current
token is the semicolon, so the failed optional sub-rule consumed one
token instead of none (it would consequently accept the ungrammatical
`"int f()\x7breturn -;\x7d"`, the semicolon check succeeding). -/
theorem returnstatement_optional_consumes :
    (check_and_eat_token C1Token.kwReturn "Expected \"return\""
        (C1Lexer.new (tokenizeStr "return -;"))).2.current_token =
      some ⟨C1Token.minus, "-", 1⟩ ∧
    (returnstatement 20 (C1Lexer.new (tokenizeStr "return -;"))).1 = PRes.ok ∧
    (returnstatement 20 (C1Lexer.new (tokenizeStr "return -;"))).2.current_token =
      some ⟨C1Token.semicolon, ";", 1⟩ := by
  refine ⟨by decide, by decide, by decide⟩

/-- C2 counterexample: `statement` on the tokens of `"x;"` fails, but the
cursor is not restored: at entry the current token is the identifier `x`,
after the failure it is the semicolon (the last alternative consumed `x`
and no alternative restores on final failure). -/
theorem statement_fail_moves_cursor :
    (C1Lexer.new (tokenizeStr "x;")).current_token =
      some ⟨C1Token.identifier, "x", 1⟩ ∧
    (statement 20 (C1Lexer.new (tokenizeStr "x;"))).1 =
      PRes.fail ("Unexpected token: Expected \"(\" \n at line 1 while trying to parse: \x27;\x27, in functioncall") ∧
    (statement 20 (C1Lexer.new (tokenizeStr "x;"))).2.current_token =
      some ⟨C1Token.semicolon, ";", 1⟩ := by
  refine ⟨by decide, by decide, by decide⟩

/-- C6 counterexample: `expr` propagates the failure of its child
`simpexpr` without appending its own name: on the tokens of `";"` the
diagnostic trail ends at ", in simpexpr" and no ", in expr" is ever
appended (nor does any enclosing `statement`, `block` or `ifstatement`
append its name). -/
theorem expr_does_not_append_name :
    (expr 20 (C1Lexer.new (tokenizeStr ";"))).1 =
      PRes.fail ("Unexpected token: Expected <FACTOR> \n at line 1 while trying to parse: \x27;\x27, in term, in simpexpr") ∧
    (List.isSuffixOf (", in expr".data)
      ("Unexpected token: Expected <FACTOR> \n at line 1 while trying to parse: \x27;\x27, in term, in simpexpr".data)) = false := by
  refine ⟨by decide, by decide⟩

/-- C7 counterexample: the newline terminating a `//` line comment is
consumed as part of the skipped comment match and does not increment the
line counter: in `"//c\nx"` the identifier `x` begins on source line 2
(one newline precedes it, at character index 3), but the emitted token
carries line number 1. -/
theorem comment_newline_not_counted :
    (C1Lexer.new (tokenizeStr "//c\nx")).current_token =
      some ⟨C1Token.identifier, "x", 1⟩ ∧
    ("//c\nx".data.take 4).count '\n' + 1 = 2 := by
  refine ⟨by decide, by decide⟩

/-- C8 counterexample: `"/*a*b*/"` is `/*` followed by content (`a*b`)
that does not contain the sequence `*/`, followed by the first `*/`; yet
the tokenizer does not discard it — because the comment regex's character
class `[^\*/]` forbids the individual characters `*` and `/` in the body,
the input is instead tokenized as seven operator/identifier tokens. -/
theorem block_comment_star_not_discarded :
    hasCommentClose ['a', '*', 'b'] = false ∧
    tokenizeStr "/*a*b*/" =
      [⟨C1Token.slash, "/"⟩, ⟨C1Token.asterisk, "*"⟩, ⟨C1Token.identifier, "a"⟩,
       ⟨C1Token.asterisk, "*"⟩, ⟨C1Token.identifier, "b"⟩,
       ⟨C1Token.asterisk, "*"⟩, ⟨C1Token.slash, "/"⟩] := by
  refine ⟨by decide, by decide⟩

/-- C6 amended: exactly four rules extend a propagated diagnostic with
their own name — `function_definition` (", in function definition"),
`functioncall` (", in functioncall"), `term` (", in term") and `simpexpr`
(", in simpexpr"); the remaining rules (shown here for `expr`) hand a
child failure on unchanged, so the trail names only those four rules,
innermost first. -/
theorem diagnostic_trail_appenders (fuel : Nat) (s : C1Lexer) :
    (∀ e, (factor fuel s).1 = PRes.fail e →
      term (fuel + 1) s = (PRes.fail (e ++ ", in term"), (factor fuel s).2)) ∧
    (∀ e, (term fuel ((check_and_eat_token C1Token.minus "" s).2)).1 = PRes.fail e →
      simpexpr (fuel + 1) s =
        (PRes.fail (e ++ ", in simpexpr"),
         (term fuel ((check_and_eat_token C1Token.minus "" s).2)).2)) ∧
    (∀ e, (simpexpr fuel s).1 = PRes.fail e →
      expr (fuel + 1) s = (PRes.fail e, (simpexpr fuel s).2)) ∧
    (∀ e, (p_type s).1 = PRes.fail e →
      function_definition (fuel + 1) s =
        (PRes.fail (e ++ ", in function definition"), (p_type s).2)) ∧
    (∀ e, (check_and_eat_token C1Token.identifier "Expected <ID>" s).1 = PRes.fail e →
      functioncall s =
        (PRes.fail (e ++ ", in functioncall"),
         (check_and_eat_token C1Token.identifier "Expected <ID>" s).2)) := by
  refine ⟨?_, ?_, ?_, ?_, ?_⟩
  · intro e h
    rcases hfs : factor fuel s with ⟨r, s'⟩
    rw [hfs] at h
    simp only at h
    subst h
    simp [term, hfs, pmapErr]
  · intro e h
    rcases hts : term fuel ((check_and_eat_token C1Token.minus "" s).2) with ⟨r, s'⟩
    rw [hts] at h
    simp only at h
    subst h
    simp [simpexpr, hts, pmapErr]
  · intro e h
    rcases hse : simpexpr fuel s with ⟨r, s'⟩
    rw [hse] at h
    simp only at h
    subst h
    simp [expr, hse]
  · intro e h
    rcases hpt : p_type s with ⟨r, s'⟩
    rw [hpt] at h
    simp only at h
    subst h
    simp [function_definition, hpt, pbind, pmapErr]
  · intro e h
    rcases hck : check_and_eat_token C1Token.identifier "Expected <ID>" s with ⟨r, s'⟩
    rw [hck] at h
    simp only at h
    subst h
    simp [functioncall, hck, pbind, pmapErr]

/-- Witness for `diagnostic_trail_appenders` at a concrete input: `term`
on the tokens of `";"` appends ", in term" to the failing factor's
diagnostic. -/
theorem diagnostic_trail_appenders_witness :
    term 11 (C1Lexer.new (tokenizeStr ";")) =
      (PRes.fail ("Unexpected token: Expected <FACTOR> \n at line 1 while trying to parse: \x27;\x27" ++ ", in term"),
       (factor 10 (C1Lexer.new (tokenizeStr ";"))).2) :=
  (diagnostic_trail_appenders 10 (C1Lexer.new (tokenizeStr ";"))).1
    "Unexpected token: Expected <FACTOR> \n at line 1 while trying to parse: \x27;\x27"
    (by decide)

theorem pullToken_none_upstream {line up up' line'}
    (h : pullToken line up = (none, up', line')) : up' = [] := by
  induction up generalizing line with
  | nil => simp [pullToken] at h; exact h.1
  | cons r rest ih =>
    by_cases hr : r.typ = C1Token.linebreak
    · rw [pullToken, if_pos hr] at h; exact ih h
    · rw [pullToken, if_neg hr] at h; simp at h

theorem emitAll_eq_match (line : Nat) (up : List RawTok) :
    emitAll line up =
      match pullToken line up with
      | (none, _, _) => []
      | (some td, up', line') => td :: emitAll line' up' := by
  induction up generalizing line with
  | nil => simp [pullToken, emitAll]
  | cons r rest ih =>
    by_cases hr : r.typ = C1Token.linebreak
    · rw [emitAll, if_pos hr, pullToken, if_pos hr]; exact ih (line + 1)
    · rw [emitAll, if_neg hr, pullToken, if_neg hr]

theorem pull_of_emit_nil {line up} (h : emitAll line up = []) :
    ∃ line', pullToken line up = (none, [], line') := by
  have hm := emitAll_eq_match line up
  rcases hp : pullToken line up with ⟨otd, up', line'⟩
  rw [hp] at hm
  cases otd with
  | none => exact ⟨line', by rw [pullToken_none_upstream hp]⟩
  | some td => rw [h] at hm; simp at hm

theorem pull_of_emit_cons {line up td rest} (h : emitAll line up = td :: rest) :
    ∃ up' line', pullToken line up = (some td, up', line') ∧ emitAll line' up' = rest := by
  have hm := emitAll_eq_match line up
  rcases hp : pullToken line up with ⟨otd, up', line'⟩
  rw [hp] at hm
  cases otd with
  | none => rw [h] at hm; simp at hm
  | some td' =>
    rw [h] at hm
    simp at hm
    exact ⟨up', line', by rw [hm.1], hm.2.symm⟩

theorem advance_replay {s : C1Lexer} (hm : 1 ≤ s.marks) (h : s.position < s.past.length) :
    advance s = { s with position := s.position + 1,
                         current_token := some (s.past.getD s.position dummyTok) } := by
  rw [advance, if_neg (by omega)]
  have : ¬ (s.marks = 0 ∧ s.past.length ≤ s.position + 1 ∧ s.past.length ≠ 0) := by
    rintro ⟨h0, -, -⟩; omega
  simp only [if_neg this]

theorem advance_pull_some {s : C1Lexer} (hm : 1 ≤ s.marks) (hp : s.past.length ≤ s.position)
    {td rest} (he : emitAll s.logos_line_number s.upstream = td :: rest) :
    ∃ up' line',
      advance s = { s with upstream := up', logos_line_number := line',
                           past := s.past ++ [td], position := s.past.length + 1,
                           current_token := some td } ∧
      emitAll line' up' = rest := by
  obtain ⟨up', line', hpull, hrest⟩ := pull_of_emit_cons he
  refine ⟨up', line', ?_, hrest⟩
  rw [advance, if_pos hp]
  rw [next_token_lexer, hpull]
  simp only [if_pos (by omega : 0 < s.marks)]
  have : ¬ (s.marks = 0 ∧ (s.past ++ [td]).length ≤ s.past.length + 1 ∧
      (s.past ++ [td]).length ≠ 0) := by
    rintro ⟨h0, -, -⟩; omega
  simp only [if_neg this]

theorem advance_pull_none {s : C1Lexer} (hm : 1 ≤ s.marks) (hp : s.past.length ≤ s.position)
    (he : emitAll s.logos_line_number s.upstream = []) :
    ∃ line', advance s = { s with upstream := [], logos_line_number := line',
                                  position := s.past.length + 1,
                                  current_token := none } := by
  obtain ⟨line', hpull⟩ := pull_of_emit_nil he
  refine ⟨line', ?_⟩
  rw [advance, if_pos hp]
  rw [next_token_lexer, hpull]
  have : ¬ (s.marks = 0 ∧ s.past.length ≤ s.past.length + 1 ∧ s.past.length ≠ 0) := by
    rintro ⟨h0, -, -⟩; omega
  simp only [if_neg this]

theorem mark_spec {s : C1Lexer} (hm : 1 ≤ s.marks) (hp : 1 ≤ s.position) :
    mark s = (s.position - 1, { s with marks := s.marks + 1 }) := by
  rw [mark]
  simp only [if_neg (by omega : ¬ (s.marks + 1 = 1))]
  simp [show ¬ (s.position = 0) by omega]

theorem pop_mark_spec {s : C1Lexer} (hm : 1 ≤ s.marks) :
    pop_mark s = { s with marks := s.marks - 1 } := by
  rw [pop_mark]
  simp [show ¬ (s.marks = 0) by omega]

theorem getD_eq_getElem' {l : List TokenData} {n : Nat} (h : n < l.length) :
    l.getD n dummyTok = l[n] := List.getD_eq_getElem l dummyTok h


theorem advance_spec {s : C1Lexer} (hm : 1 ≤ s.marks) (hc : Coh s) :
    Coh (advance s) ∧ Grows s (advance s) ∧ future (advance s) = (future s).tail := by
  obtain ⟨hpan, hp1, hple, hmid, heof⟩ := hc
  by_cases hlt : s.position < s.past.length
  · rw [advance_replay hm hlt]
    refine ⟨⟨hpan, ?_, ?_, ?_, ?_⟩, ⟨rfl, rfl, by simp⟩, ?_⟩
    · simp
    · simp only []
      omega
    · intro h
      simp
    · intro h
      simp only [] at h
      omega
    · have hcur := hmid (by omega)
      simp only [future, hcur]
      rw [getD_eq_getElem' hlt]
      simp only [List.singleton_append, List.tail_cons]
      rw [List.drop_eq_getElem_cons hlt]
      simp
  · have hple' : s.past.length ≤ s.position := by omega
    rcases he : emitAll s.logos_line_number s.upstream with _ | ⟨td, rest⟩
    · obtain ⟨line', hadv⟩ := advance_pull_none hm hple' he
      rw [hadv]
      refine ⟨⟨hpan, ?_, ?_, ?_, ?_⟩, ⟨rfl, ?_, by simp⟩, ?_⟩
      · simp
      · simp
      · intro h
        simp only [] at h
        omega
      · intro h
        simp [emitAll]
      · simp [hist, he, emitAll]
      · by_cases hpos : s.position = s.past.length + 1
        · have h1 := (heof hpos).1
          simp only [future, h1, he, List.nil_append, emitAll]
          simp [List.drop_eq_nil_of_le (by omega : s.past.length ≤ s.position),
                List.drop_eq_nil_of_le (by omega : s.past.length ≤ s.past.length + 1)]
        · have hcur := hmid (by omega)
          simp only [future, hcur, he, emitAll]
          simp [List.drop_eq_nil_of_le (by omega : s.past.length ≤ s.position),
                List.drop_eq_nil_of_le (by omega : s.past.length ≤ s.past.length + 1)]
    · obtain ⟨up', line', hadv, hrest⟩ := advance_pull_some hm hple' he
      have hpos : s.position = s.past.length := by
        rcases Nat.lt_or_ge s.position (s.past.length + 1) with h | h
        · omega
        · have h2 := (heof (by omega)).2
          rw [h2] at he
          simp at he
      have hcur := hmid (by omega)
      rw [hadv]
      refine ⟨⟨hpan, ?_, ?_, ?_, ?_⟩, ⟨rfl, ?_, by simp⟩, ?_⟩
      · simp
      · simp
      · intro h
        simp only []
        rw [getD_eq_getElem' (by simp : s.past.length + 1 - 1 < (s.past ++ [td]).length)]
        rw [List.getElem_append_right (by omega : s.past.length ≤ s.past.length + 1 - 1)]
        simp
      · intro h
        simp only [] at h
        simp at h
      · simp only [hist]
        rw [he, hrest]
        simp
      · simp only [future, hcur, he]
        rw [getD_eq_getElem' (by omega : s.position - 1 < s.past.length)]
        simp [List.drop_eq_nil_of_le (by omega : s.past.length ≤ s.position),
              List.drop_eq_nil_of_le (by simp : (s.past ++ [td]).length ≤ s.past.length + 1),
              hrest]

theorem future_eq_hist_drop {s : C1Lexer} (hc : Coh s) :
    future s = (hist s).drop (s.position - 1) := by
  obtain ⟨hpan, hp1, hple, hmid, heof⟩ := hc
  by_cases h : s.position ≤ s.past.length
  · have hcur := hmid h
    simp only [future, hist, hcur]
    rw [getD_eq_getElem' (by omega : s.position - 1 < s.past.length)]
    rw [List.drop_append_of_le_length (by omega)]
    rw [List.drop_eq_getElem_cons (by omega : s.position - 1 < s.past.length)]
    simp only [List.singleton_append, List.cons_append]
    rw [show s.position - 1 + 1 = s.position by omega]
    simp
  · have hpos : s.position = s.past.length + 1 := by omega
    obtain ⟨hcur, hemit⟩ := heof hpos
    simp only [future, hist, hcur, hemit, hpos, List.nil_append, List.append_nil]
    rw [List.drop_eq_nil_of_le (by simp), List.drop_eq_nil_of_le (by omega)]

theorem grows_refl (s : C1Lexer) : Grows s s := ⟨rfl, rfl, le_refl _⟩

theorem grows_trans {a b c : C1Lexer} (h1 : Grows a b) (h2 : Grows b c) : Grows a c :=
  ⟨h2.1.trans h1.1, h2.2.1.trans h1.2.1, h1.2.2.trans h2.2.2⟩

theorem emitAll_length_eq_zero {line : Nat} {up : List RawTok}
    (h : (emitAll line up).length = 0) : emitAll line up = [] :=
  List.eq_nil_of_length_eq_zero h

theorem marker_grows {m : Nat} {s s' : C1Lexer} (h : Grows s s') (hmk : Marker m s) :
    Marker m s' := by
  rcases hmk with h1 | ⟨h1, h2⟩
  · exact Or.inl (lt_of_lt_of_le h1 h.2.2)
  · right
    have hlen : (hist s').length = (hist s).length := by rw [h.2.1]
    simp only [hist, List.length_append, h2, List.length_nil, Nat.add_zero] at hlen
    have hle : s'.past.length ≤ s.past.length := by omega
    have heq : s'.past.length = s.past.length := le_antisymm hle h.2.2
    have hzero : (emitAll s'.logos_line_number s'.upstream).length = 0 := by omega
    exact ⟨by omega, emitAll_length_eq_zero hzero⟩

theorem marker_le_past {m : Nat} {s : C1Lexer} (h : Marker m s) :
    m ≤ s.past.length := by
  rcases h with h | ⟨h, -⟩
  · omega
  · omega

theorem marker_of_coh {s : C1Lexer} (hc : Coh s) : Marker (s.position - 1) s := by
  obtain ⟨hpan, hp1, hple, hmid, heof⟩ := hc
  by_cases h : s.position ≤ s.past.length
  · exact Or.inl (by omega)
  · exact Or.inr ⟨by omega, (heof (by omega)).2⟩

theorem coh_pan {s : C1Lexer} (hc : Coh s) : s.panicked = false := hc.1

theorem undo_spec {s : C1Lexer} {m : Nat} (hm : 1 ≤ s.marks)
    (hpan : s.panicked = false) (hmk : Marker m s) :
    Coh (undo m s) ∧ Grows s (undo m s) ∧ (undo m s).position = m + 1 ∧
      future (undo m s) = (hist s).drop m := by
  rcases hmk with hlt | ⟨hmeq, hemit⟩
  · have h : undo m s =
        { s with position := m + 1,
                 current_token := some (s.past.getD m dummyTok) } := by
      rw [undo, advance_replay (s := { s with position := m }) hm hlt]
    rw [h]
    refine ⟨⟨hpan, by simp, (by simp; omega), ?_, ?_⟩, ⟨rfl, rfl, by simp⟩, by simp, ?_⟩
    · intro h'
      simp
    · intro h'
      simp only [] at h'
      omega
    · simp only [future]
      rw [getD_eq_getElem' hlt]
      simp only [List.singleton_append]
      rw [hist, List.drop_append_of_le_length (by omega),
        List.drop_eq_getElem_cons hlt]
  · obtain ⟨line', h0⟩ :=
      advance_pull_none (s := { s with position := m }) hm (by simp [hmeq])
        (by simpa using hemit)
    have h : undo m s =
        { s with upstream := [], logos_line_number := line',
                 position := s.past.length + 1, current_token := none } := by
      rw [undo, h0]
    rw [h]
    refine ⟨⟨hpan, by simp, by simp, ?_, ?_⟩, ⟨rfl, ?_, by simp⟩, ?_, ?_⟩
    · intro h'
      simp only [] at h'
      omega
    · intro h'
      simp [emitAll]
    · simp [hist, hemit, emitAll]
    · simp [hmeq]
    · simp only [future, hist, hemit, emitAll]
      simp [hmeq]

theorem check_and_eat_cases (t : C1Token) (reason : String) (s : C1Lexer) :
    (current_matches t s = true ∧ check_and_eat_token t reason s = (PRes.ok, advance s)) ∨
    (current_matches t s = false ∧
      ∃ e, check_and_eat_token t reason s = (PRes.fail e, s)) := by
  by_cases h : current_matches t s
  · exact Or.inl ⟨h, by rw [check_and_eat_token, if_pos h]⟩
  · refine Or.inr ⟨by simpa using h, ?_⟩
    rw [check_and_eat_token, if_neg h]
    cases hc : s.current_token with
    | none => exact ⟨reason ++ ". Reached EOF", rfl⟩
    | some td =>
      exact ⟨unexpectedMsg reason td.token_line td.token_text,
        by simp [currentLineNumber, currentText, hc]⟩

theorem any_eat_loop_cases (toks : List C1Token) (s : C1Lexer) :
    any_eat_loop toks s = (true, advance s) ∨ any_eat_loop toks s = (false, s) := by
  induction toks with
  | nil => exact Or.inr rfl
  | cons t ts ih =>
    rcases check_and_eat_cases t "" s with ⟨-, h⟩ | ⟨-, e, h⟩
    · exact Or.inl (by rw [any_eat_loop, h])
    · rw [any_eat_loop, h]
      exact ih

theorem any_match_and_eat_cases (toks : List C1Token) (reason : String) (s : C1Lexer) :
    any_match_and_eat toks reason s = (PRes.ok, advance s) ∨
      ∃ e, any_match_and_eat toks reason s = (PRes.fail e, s) := by
  rcases any_eat_loop_cases toks s with h | h
  · exact Or.inl (by rw [any_match_and_eat, h])
  · rw [any_match_and_eat, h]
    cases hc : s.current_token with
    | none =>
      refine Or.inr ⟨reason ++ ". Reached EOF", ?_⟩
      simp [hc]
    | some td =>
      refine Or.inr ⟨unexpectedMsg reason td.token_line td.token_text, ?_⟩
      simp [hc, currentLineNumber, currentText]

theorem check_ruleOk {t : C1Token} {reason : String} {s : C1Lexer}
    (hc : Coh s) (hm : 1 ≤ s.marks) :
    RuleOk s (check_and_eat_token t reason s) := by
  rcases check_and_eat_cases t reason s with ⟨-, h⟩ | ⟨-, e, h⟩
  · rw [h]
    exact ⟨by intro h'; simp at h',
      fun _ => ⟨(advance_spec hm hc).1, (advance_spec hm hc).2.1⟩⟩
  · rw [h]
    exact ⟨by intro h'; simp at h', fun _ => ⟨hc, grows_refl s⟩⟩

theorem any_ruleOk {toks : List C1Token} {reason : String} {s : C1Lexer}
    (hc : Coh s) (hm : 1 ≤ s.marks) :
    RuleOk s (any_match_and_eat toks reason s) := by
  rcases any_match_and_eat_cases toks reason s with h | ⟨e, h⟩
  · rw [h]
    exact ⟨by intro h'; simp at h',
      fun _ => ⟨(advance_spec hm hc).1, (advance_spec hm hc).2.1⟩⟩
  · rw [h]
    exact ⟨by intro h'; simp at h', fun _ => ⟨hc, grows_refl s⟩⟩

theorem ruleOk_precomp {s u : C1Lexer} {r : PRes × C1Lexer}
    (hg : Grows s u) (h : RuleOk u r) : RuleOk s r := by
  constructor
  · intro ho
    exact ⟨(h.1 ho).1, le_trans (le_of_eq hg.1.symm) ((h.1 ho).2)⟩
  · intro ho
    exact ⟨(h.2 ho).1, grows_trans hg (h.2 ho).2⟩

theorem ruleOk_pbind {s : C1Lexer} {x : PRes × C1Lexer} {g : C1Lexer → PRes × C1Lexer}
    (hm : 1 ≤ s.marks) (hx : RuleOk s x)
    (hg : ∀ s', Coh s' → 1 ≤ s'.marks → Grows s s' → RuleOk s' (g s')) :
    RuleOk s (pbind x g) := by
  rcases x with ⟨r, sx⟩
  cases r with
  | ok =>
    have h := hx.2 (by simp)
    have hg' := hg sx h.1 (by rw [h.2.1]; exact hm) h.2
    rw [pbind]
    exact ruleOk_precomp h.2 hg'
  | fail e => exact hx
  | oot => exact hx

theorem takeWhileLen_all {p : Char → Bool} {l1 l2 : List Char}
    (h : ∀ c ∈ l1, p c = true) :
    takeWhileLen p (l1 ++ l2) = l1.length + takeWhileLen p l2 := by
  induction l1 with
  | nil => simp [takeWhileLen]
  | cons c cs ih =>
    rw [List.cons_append, takeWhileLen, if_pos (by simp [h c (by simp)])]
    rw [ih (fun d hd => h d (by simp [hd]))]
    simp only [List.length_cons]
    omega

theorem takeWhileLen_neg {p : Char → Bool} {c : Char} {l : List Char}
    (h : p c = false) : takeWhileLen p (c :: l) = 0 := by
  rw [takeWhileLen, if_neg (by simp [h])]

theorem matchCComment_closed (content rest : List Char)
    (h : ∀ c ∈ content, ¬ (c = '*' ∨ c = '/')) :
    matchCComment ('/' :: '*' :: (content ++ '*' :: '/' :: rest)) =
      some (content.length + 4) := by
  rw [matchCComment]
  have hall : ∀ c ∈ content,
      (fun c => decide (¬ (c = '*' ∨ c = '/'))) c = true := by
    intro c hc
    simpa using h c hc
  have ht : takeWhileLen (fun c => decide (¬ (c = '*' ∨ c = '/')))
      (content ++ '*' :: '/' :: rest) = content.length := by
    rw [takeWhileLen_all hall, takeWhileLen_neg (by simp)]
    omega
  simp only [ht]
  rw [List.drop_left]
  rfl

theorem bestMatch_comment (content rest : List Char)
    (h : ∀ c ∈ content, ¬ (c = '*' ∨ c = '/')) :
    bestMatch ('/' :: '*' :: (content ++ '*' :: '/' :: rest)) =
      some (C1Token.cComment, content.length + 4) := by
  have hcc := matchCComment_closed content rest h
  rw [bestMatch, patternList]
  simp only [List.foldl_cons, List.foldl_nil]
  rw [hcc]
  simp [pickBetter, matchLit, matchConstBoolean, matchConstInt, matchConstFloat,
    matchFloatA, matchFloatB, matchFloatC, matchConstString, matchIdentifier,
    matchCPPComment, matchWhitespace, matchLinebreak, maxOpt, takeWhileLen,
    List.isPrefixOf, Char.isDigit, Char.isAlpha, isSkip]

theorem rawScan_nil (fuel : Nat) : rawScan fuel [] = [] := by
  cases fuel <;> rfl

theorem rawScan_fuel_irrelevant :
    ∀ (f1 f2 : Nat) (cs : List Char), cs.length ≤ f1 → cs.length ≤ f2 →
      rawScan f1 cs = rawScan f2 cs := by
  intro f1
  induction f1 with
  | zero =>
    intro f2 cs h1 h2
    have : cs = [] := List.eq_nil_of_length_eq_zero (by omega)
    rw [this, rawScan_nil, rawScan_nil]
  | succ f1 ih =>
    intro f2 cs h1 h2
    cases cs with
    | nil => rw [rawScan_nil, rawScan_nil]
    | cons c cs' =>
      cases f2 with
      | zero => simp at h2
      | succ f2 =>
        rw [rawScan, rawScan]
        rcases hs : scanStep (c :: cs') with ⟨or, n⟩
        simp only [List.length_cons] at h1 h2
        have hlen1 : ((c :: cs').drop (max n 1)).length ≤ f1 := by
          simp only [List.length_drop, List.length_cons]
          omega
        have hlen2 : ((c :: cs').drop (max n 1)).length ≤ f2 := by
          simp only [List.length_drop, List.length_cons]
          omega
        cases or with
        | some r =>
          show r :: rawScan f1 ((c :: cs').drop (max n 1)) =
            r :: rawScan f2 ((c :: cs').drop (max n 1))
          rw [ih f2 _ hlen1 hlen2]
        | none =>
          show rawScan f1 ((c :: cs').drop (max n 1)) =
            rawScan f2 ((c :: cs').drop (max n 1))
          exact ih f2 _ hlen1 hlen2

/-- C8 amended: a block comment whose body contains neither a `*` nor a
`/` character — the class the regex `/\*[^\*/]*\*/` actually accepts — is
discarded whole: scanning from the `/*` produces exactly the tokens of
the text after the closing `*/`. -/
theorem block_comment_skip_amended (content rest : String)
    (h : ∀ c ∈ content.data, ¬ (c = '*' ∨ c = '/')) :
    tokenizeStr ("/*" ++ content ++ "*/" ++ rest) = tokenizeStr rest := by
  have hdata : ("/*" ++ content ++ "*/" ++ rest).data =
      '/' :: '*' :: (content.data ++ '*' :: '/' :: rest.data) := by
    simp [String.data_append]
  rw [tokenizeStr, hdata]
  have hlen : ('/' :: '*' :: (content.data ++ '*' :: '/' :: rest.data)).length =
      (content.data.length + rest.data.length + 3) + 1 := by
    simp [List.length_append]
    omega
  rw [hlen, rawScan]
  have hstep : scanStep ('/' :: '*' :: (content.data ++ '*' :: '/' :: rest.data)) =
      (none, content.data.length + 4) := by
    rw [scanStep, bestMatch_comment content.data rest.data h]
    simp [isSkip]
  rw [hstep]
  have hdrop : ('/' :: '*' :: (content.data ++ '*' :: '/' :: rest.data)).drop
      (max (content.data.length + 4) 1) = rest.data := by
    rw [show max (content.data.length + 4) 1 = content.data.length + 4 by omega]
    show (('/' :: '*' :: content.data) ++ '*' :: '/' :: rest.data).drop
      (content.data.length + 4) = rest.data
    rw [show content.data.length + 4 = ('/' :: '*' :: content.data).length + 2 by
      simp]
    rw [List.drop_add, List.drop_left]
    rfl
  show rawScan (content.data.length + rest.data.length + 3)
      (('/' :: '*' :: (content.data ++ '*' :: '/' :: rest.data)).drop
        (max (content.data.length + 4) 1)) = tokenizeStr rest
  rw [hdrop, tokenizeStr]
  exact rawScan_fuel_irrelevant _ _ _ (by omega) (le_refl _)

/-- Witness for `block_comment_skip_amended` at a concrete input: the
comment `/* ab */` followed by `x` scans to the same raw tokens as `x`
alone. -/
theorem block_comment_skip_amended_witness :
    tokenizeStr ("/*" ++ " ab " ++ "*/" ++ "x") = tokenizeStr "x" :=
  block_comment_skip_amended " ab " "x" (by decide)

theorem scanStep_no_skip {cs : List Char} {r : RawTok} {n : Nat}
    (h : scanStep cs = (some r, n)) : isSkip r.typ = false := by
  rw [scanStep] at h
  rcases hb : bestMatch cs with _ | ⟨t, len⟩
  · rw [hb] at h
    simp only [Prod.mk.injEq, Option.some.injEq] at h
    rw [← h.1]
    rfl
  · rw [hb] at h
    by_cases hs : isSkip t
    · simp [hs] at h
    · simp only [hs, Bool.false_eq_true, if_neg, Prod.mk.injEq,
        Option.some.injEq, ite_false] at h
      rw [← h.1]
      simpa using hs

theorem rawScan_no_skip :
    ∀ (fuel : Nat) (cs : List Char) (r : RawTok), r ∈ rawScan fuel cs →
      isSkip r.typ = false := by
  intro fuel
  induction fuel with
  | zero => intro cs r hr; simp [rawScan] at hr
  | succ fuel ih =>
    intro cs r hr
    cases cs with
    | nil => simp [rawScan] at hr
    | cons c cs' =>
      rw [rawScan] at hr
      rcases hs : scanStep (c :: cs') with ⟨or, n⟩
      rw [hs] at hr
      cases or with
      | some r' =>
        simp only [List.mem_cons] at hr
        rcases hr with rfl | hr
        · exact scanStep_no_skip hs
        · exact ih _ _ hr
      | none => exact ih _ _ hr

/-- C7 amended: a `Linebreak` unit produced by the logos layer increments
the line counter and is discarded, and no skipped variant (block comment,
line comment, whitespace) is ever emitted by the scanner; every emitted
token is stamped with the counter's current value.  Newlines consumed
inside a skipped comment match never reach this stage, so they do not
increment the counter (see the counterexample). -/
theorem newline_handling_amended :
    (∀ (line : Nat) (up : List RawTok) (td : TokenData), td ∈ emitAll line up →
      td.token_type ≠ C1Token.linebreak) ∧
    (∀ (line : Nat) (r : RawTok) (rest : List RawTok), r.typ = C1Token.linebreak →
      emitAll line (r :: rest) = emitAll (line + 1) rest) ∧
    (∀ (line : Nat) (r : RawTok) (rest : List RawTok), r.typ ≠ C1Token.linebreak →
      emitAll line (r :: rest) = ⟨r.typ, r.text, line⟩ :: emitAll line rest) ∧
    (∀ (fuel : Nat) (cs : List Char) (r : RawTok), r ∈ rawScan fuel cs →
      isSkip r.typ = false) := by
  refine ⟨?_, ?_, ?_, rawScan_no_skip⟩
  · intro line up
    induction up generalizing line with
    | nil => intro td h; simp [emitAll] at h
    | cons r rest ih =>
      intro td h
      by_cases hr : r.typ = C1Token.linebreak
      · rw [emitAll, if_pos hr] at h
        exact ih (line + 1) td h
      · rw [emitAll, if_neg hr] at h
        rcases List.mem_cons.mp h with rfl | h'
        · exact hr
        · exact ih line td h'
  · intro line r rest hr
    rw [emitAll, if_pos hr]
  · intro line r rest hr
    rw [emitAll, if_neg hr]

/-- Witness for `newline_handling_amended` at concrete inputs: a
linebreak item is discarded while bumping the counter, and a non-linebreak
item is stamped with the current counter. -/
theorem newline_handling_amended_witness :
    emitAll 1 [⟨C1Token.linebreak, "\n"⟩, ⟨C1Token.identifier, "x"⟩] =
        emitAll 2 [⟨C1Token.identifier, "x"⟩] ∧
    emitAll 2 [⟨C1Token.identifier, "x"⟩] =
        [⟨C1Token.identifier, "x", 2⟩] := by
  constructor
  · exact newline_handling_amended.2.1 1 ⟨C1Token.linebreak, "\n"⟩
      [⟨C1Token.identifier, "x"⟩] (by decide)
  · have := newline_handling_amended.2.2.1 2 ⟨C1Token.identifier, "x"⟩ [] (by decide)
    rw [this]
    rfl

theorem future_set_marks (s : C1Lexer) (k : Nat) :
    future { s with marks := k } = future s := rfl

theorem hist_set_marks (s : C1Lexer) (k : Nat) :
    hist { s with marks := k } = hist s := rfl

theorem coh_set_marks {s : C1Lexer} (k : Nat) (hc : Coh s) :
    Coh { s with marks := k } := hc

theorem marker_set_marks {m : Nat} {s : C1Lexer} (k : Nat) (hmk : Marker m s) :
    Marker m { s with marks := k } := hmk

theorem mark_from_zero_some {s : C1Lexer} {t : TokenData} (hmk : s.marks = 0)
    (hcur : s.current_token = some t) (hpan : s.panicked = false) :
    mark s = (0, { s with marks := 1, past := [t], position := 1 }) := by
  rw [mark]
  simp [hmk, hcur, hpan]

theorem mark_from_zero_none {s : C1Lexer} (hmk : s.marks = 0)
    (hcur : s.current_token = none) (hp1 : 1 ≤ s.position) :
    mark s = (s.position - 1, { s with marks := 1 }) := by
  rw [mark]
  simp [hmk, hcur, show ¬ (s.position = 0) by omega]

theorem advanceN_spec (j : Nat) {t : C1Lexer} (hm : 1 ≤ t.marks) (hc : Coh t) :
    Coh (advanceN j t) ∧ Grows t (advanceN j t) := by
  induction j with
  | zero => exact ⟨hc, grows_refl t⟩
  | succ n ih =>
    obtain ⟨hc', hg⟩ := ih
    have hm' : 1 ≤ (advanceN n t).marks := by rw [hg.1]; exact hm
    obtain ⟨hc'', hg', -⟩ := advance_spec hm' hc'
    exact ⟨hc'', grows_trans hg hg'⟩

theorem checkpoint_restores {t : C1Lexer} {m : Nat} (hm : 1 ≤ t.marks) (hc : Coh t)
    (hmk : Marker m t) (j : Nat) :
    future (undo m (advanceN j t)) = (hist t).drop m ∧
    Coh (undo m (advanceN j t)) ∧ Grows t (undo m (advanceN j t)) := by
  obtain ⟨hc', hg⟩ := advanceN_spec j hm hc
  have hm' : 1 ≤ (advanceN j t).marks := by rw [hg.1]; exact hm
  have hmk' := marker_grows hg hmk
  obtain ⟨hcu, hgu, hpos, hfut⟩ := undo_spec hm' hc'.1 hmk'
  refine ⟨?_, hcu, grows_trans hg hgu⟩
  rw [hfut, hg.2.1]

/-- A `mark` taken either in the speculative regime (at least one mark
already open on a coherent buffer) or as the outermost mark from an
open-mark count of zero (the reseed path, which installs the current
token as a fresh one-element buffer, or at end of input leaves the empty
buffer) yields a coherent state with at least one open mark whose
returned marker is the cursor minus one. -/
theorem mark_entry {s0 : C1Lexer}
    (h : (1 ≤ s0.marks ∧ Coh s0) ∨ TopA s0) :
    Coh (mark s0).2 ∧ 1 ≤ (mark s0).2.marks ∧
      (mark s0).1 = (mark s0).2.position - 1 := by
  rcases h with ⟨hm, hc⟩ | ⟨hpan, hmk, hpast, hsh⟩
  · rw [mark_spec hm hc.2.1]
    exact ⟨coh_set_marks _ hc, by simp, by simp⟩
  · rcases hsh with ⟨hpos0, hcne⟩ | ⟨hpos1, hcn, hemit⟩
    · rcases hcur : s0.current_token with _ | t
      · exact absurd hcur hcne
      · rw [mark_from_zero_some hmk hcur hpan]
        refine ⟨?_, by simp, by simp⟩
        refine ⟨hpan, by simp, by simp, ?_, ?_⟩
        · intro h'
          simp [hcur]
        · intro h'
          simp at h'
    · rw [mark_from_zero_none hmk hcn (by omega)]
      refine ⟨?_, by simp, by simp [hpos1]⟩
      refine ⟨hpan, by simp [hpos1], by simp [hpast, hpos1], ?_, ?_⟩
      · intro h'
        exfalso
        simp [hpast, hpos1] at h'
      · intro h'
        exact ⟨hcn, hemit⟩

/-- C3: checkpoints nest correctly.  From any coherent speculative state,
and equally from a state with no open mark (checkpoint A then being the
outermost mark, taken through the buffer-reseeding zero-to-one path),
take checkpoint A, advance `i` times, take nested checkpoint B, advance
`j` times; then `undo(B)` restores the buffer's observable token sequence
(kind, text and line of the current token and of everything that follows)
exactly to the sequence observed when B was taken; A remains a valid
checkpoint of the restored state; and after `k` further advances,
`undo(A)` restores the observable sequence to the one observed when A was
taken. -/
theorem nested_marks_replay (s0 : C1Lexer) (i j k : Nat)
    (h : (1 ≤ s0.marks ∧ Coh s0) ∨ TopA s0) :
    future (undo (mark (advanceN i (mark s0).2)).1
        (advanceN j (mark (advanceN i (mark s0).2)).2)) =
      future (advanceN i (mark s0).2) ∧
    Marker (mark s0).1
      (undo (mark (advanceN i (mark s0).2)).1
        (advanceN j (mark (advanceN i (mark s0).2)).2)) ∧
    future (undo (mark s0).1
        (advanceN k (undo (mark (advanceN i (mark s0).2)).1
          (advanceN j (mark (advanceN i (mark s0).2)).2)))) =
      future (mark s0).2 := by
  obtain ⟨hcA, hmA, hposA⟩ := mark_entry h
  set sA : C1Lexer := (mark s0).2 with hsA
  have hmkA0 : Marker (mark s0).1 sA := by
    rw [hposA]
    exact marker_of_coh hcA
  obtain ⟨hc1, hg1⟩ := advanceN_spec i hmA hcA
  set s1 : C1Lexer := advanceN i sA with hs1
  have hm1 : 1 ≤ s1.marks := by rw [hg1.1]; exact hmA
  rw [mark_spec hm1 hc1.2.1]
  set sB : C1Lexer := { s1 with marks := s1.marks + 1 } with hsB
  have hcB : Coh sB := coh_set_marks _ hc1
  have hmB : 1 ≤ sB.marks := by simp [hsB]
  have hmkB : Marker (s1.position - 1) sB :=
    marker_set_marks _ (marker_of_coh hc1)
  obtain ⟨hfB, hcU, hgU⟩ := checkpoint_restores hmB hcB hmkB j
  set sU : C1Lexer := undo (s1.position - 1) (advanceN j sB) with hsU
  have hmU : 1 ≤ sU.marks := by rw [hgU.1]; exact hmB
  have hmkA : Marker (mark s0).1 sU :=
    marker_grows hgU (marker_set_marks _ (marker_grows hg1 hmkA0))
  refine ⟨?_, hmkA, ?_⟩
  · rw [hfB, hist_set_marks]
    rw [future_eq_hist_drop hc1]
  · obtain ⟨hfA, hcA', hgA'⟩ := checkpoint_restores hmU hcU hmkA k
    rw [hfA]
    have hhist : hist sU = hist sA := by
      rw [hgU.2.1, hist_set_marks, hg1.2.1]
    rw [hhist, hposA]
    rw [future_eq_hist_drop hcA]

/-- Witness for `nested_marks_replay` on a concrete four-token input,
with checkpoint A taken as the outermost mark (open-mark count zero, the
reseed path) and one advance between the checkpoints and after them. -/
theorem nested_marks_replay_witness :
    TopA (C1Lexer.new (tokenizeStr "a b c d")) ∧
    future (undo (mark (advanceN 1 (mark (C1Lexer.new (tokenizeStr "a b c d"))).2)).1
        (advanceN 1 (mark (advanceN 1 (mark (C1Lexer.new (tokenizeStr "a b c d"))).2)).2)) =
      future (advanceN 1 (mark (C1Lexer.new (tokenizeStr "a b c d"))).2) := by
  refine ⟨by decide, ?_⟩
  exact (nested_marks_replay (C1Lexer.new (tokenizeStr "a b c d")) 1 1 1
    (Or.inr (by decide))).1

theorem ruleOk_oot {s : C1Lexer} (hc : Coh s) : RuleOk s (PRes.oot, s) :=
  ⟨fun _ => ⟨hc.1, le_refl _⟩, fun h => absurd rfl h⟩

theorem ruleOk_pmapErr {s : C1Lexer} {x : PRes × C1Lexer} {g : String → String}
    (hx : RuleOk s x) : RuleOk s (pmapErr x g) := by
  rcases x with ⟨r, sx⟩
  cases r with
  | ok => exact hx
  | oot => exact hx
  | fail e =>
    constructor
    · intro ho; simp [pmapErr] at ho
    · intro _; exact hx.2 (by simp)

theorem ruleOk_porElse {s : C1Lexer} {x : PRes × C1Lexer}
    {h : String → C1Lexer → PRes × C1Lexer}
    (hm : 1 ≤ s.marks) (hx : RuleOk s x)
    (hh : ∀ e s', Coh s' → 1 ≤ s'.marks → Grows s s' → RuleOk s' (h e s')) :
    RuleOk s (porElse x h) := by
  rcases x with ⟨r, sx⟩
  cases r with
  | ok => exact hx
  | oot => exact hx
  | fail e =>
    have hne := hx.2 (by simp)
    have hm' : 1 ≤ sx.marks := by rw [hne.2.1]; exact hm
    exact ruleOk_precomp hne.2 (hh e sx hne.1 hm' hne.2)

theorem ruleOk_undo_then {s' : C1Lexer} {m : Nat} {f : C1Lexer → PRes × C1Lexer}
    (hc : Coh s') (hm : 1 ≤ s'.marks) (hmk : Marker m s')
    (hf : ∀ u, Coh u → 1 ≤ u.marks → RuleOk u (f u)) :
    RuleOk s' (f (undo m s')) := by
  obtain ⟨hcu, hgu, -, -⟩ := undo_spec hm hc.1 hmk
  have hmu : 1 ≤ (undo m s').marks := by rw [hgu.1]; exact hm
  exact ruleOk_precomp hgu (hf _ hcu hmu)

theorem ruleOk_markpop {s : C1Lexer} {res : PRes × C1Lexer}
    (hm : 1 ≤ s.marks)
    (hres : RuleOk { s with marks := s.marks + 1 } res) :
    RuleOk s (res.1, pop_mark res.2) := by
  constructor
  · intro ho
    have h := hres.1 ho
    have h2 : s.marks + 1 ≤ res.2.marks := h.2
    have hm2 : 1 ≤ res.2.marks := by omega
    rw [pop_mark_spec hm2]
    exact ⟨h.1, by simp; omega⟩
  · intro ho
    have h := hres.2 ho
    have hmq : res.2.marks = s.marks + 1 := h.2.1
    have hm2 : 1 ≤ res.2.marks := by omega
    rw [pop_mark_spec hm2]
    refine ⟨coh_set_marks _ h.1, by simp [hmq], ?_, ?_⟩
    · rw [hist_set_marks]
      exact h.2.2.1
    · simpa using h.2.2.2

theorem check_state_ok {t : C1Token} {reason : String} {s : C1Lexer}
    (hc : Coh s) (hm : 1 ≤ s.marks) :
    Coh (check_and_eat_token t reason s).2 ∧
      Grows s (check_and_eat_token t reason s).2 := by
  rcases check_and_eat_cases t reason s with ⟨-, h⟩ | ⟨-, e, h⟩ <;> rw [h]
  · exact ⟨(advance_spec hm hc).1, (advance_spec hm hc).2.1⟩
  · exact ⟨hc, grows_refl s⟩

theorem rep_loop_ok {attempt : C1Lexer → PRes × C1Lexer}
    (hatt : ∀ s', Coh s' → 1 ≤ s'.marks → RuleOk s' (attempt s')) :
    ∀ (fuel m : Nat) (s : C1Lexer) (r : PRes) (m' : Nat) (s' : C1Lexer),
      Coh s → 2 ≤ s.marks → Marker m s →
      rep_loop fuel attempt m s = (r, m', s') →
      (r = PRes.oot → s'.panicked = false ∧ s.marks ≤ s'.marks) ∧
      (r = PRes.ok → Coh s' ∧ Grows s s' ∧ Marker m' s') ∧
      (r = PRes.ok ∨ r = PRes.oot) := by
  intro fuel
  induction fuel with
  | zero =>
    intro m s r m' s' hc hm hmk heq
    rw [rep_loop] at heq
    rcases heq
    exact ⟨fun _ => ⟨hc.1, le_refl _⟩, fun h => by simp at h, Or.inr rfl⟩
  | succ fuel ih =>
    intro m s r m' s' hc hm hmk heq
    rw [rep_loop] at heq
    rcases hat : attempt s with ⟨ra, sa⟩
    rw [hat] at heq
    have hra := hatt s hc (by omega)
    rw [hat] at hra
    cases ra with
    | ok =>
      have hne := hra.2 (by simp)
      have hcsa : Coh sa := hne.1
      have hmsa : sa.marks = s.marks := hne.2.1
      have hm1 : 1 ≤ sa.marks := by omega
      have heq2 : (match mark (pop_mark sa) with
          | (m2, s3) => rep_loop fuel attempt m2 s3) = (r, m', s') := heq
      rw [pop_mark_spec hm1] at heq2
      have hm2 : 1 ≤ sa.marks - 1 := by omega
      rw [mark_spec (by simpa using hm2) (by simpa using hcsa.2.1)] at heq2
      have heq3 : rep_loop fuel attempt (sa.position - 1)
          { sa with marks := sa.marks - 1 + 1 } = (r, m', s') := heq2
      clear heq heq2
      have hc3 : Coh { sa with marks := sa.marks - 1 + 1 } := coh_set_marks _ hcsa
      have hmk3 : Marker (sa.position - 1) { sa with marks := sa.marks - 1 + 1 } :=
        marker_set_marks _ (marker_of_coh hcsa)
      have := ih _ _ r m' s' hc3 (by simp; omega) hmk3 heq3
      refine ⟨?_, ?_, this.2.2⟩
      · intro ho
        obtain ⟨hp, hmle⟩ := this.1 ho
        refine ⟨hp, ?_⟩
        have : sa.marks - 1 + 1 ≤ s'.marks := hmle
        omega
      · intro ho
        obtain ⟨hc', hg', hmk'⟩ := this.2.1 ho
        refine ⟨hc', ?_, hmk'⟩
        refine grows_trans (b := { sa with marks := sa.marks - 1 + 1 }) ?_ hg'
        exact ⟨by simp; omega, by rw [hist_set_marks]; exact hne.2.2.1,
          by simpa using hne.2.2.2⟩
    | oot =>
      rcases heq
      have h := hra.1 rfl
      exact ⟨fun _ => h, fun h' => by simp at h', Or.inr rfl⟩
    | fail e =>
      rcases heq
      have hne := hra.2 (by simp)
      exact ⟨fun h' => by simp at h',
        fun _ => ⟨hne.1, hne.2, marker_grows hne.2 hmk⟩, Or.inl rfl⟩

theorem rep_tail_ok {attempt : C1Lexer → PRes × C1Lexer}
    (hatt : ∀ s', Coh s' → 1 ≤ s'.marks → RuleOk s' (attempt s'))
    {fuel : Nat} {s : C1Lexer} (hc : Coh s) (hm : 1 ≤ s.marks)
    {r : PRes} {m' : Nat} {s' : C1Lexer}
    (hrl : rep_loop fuel attempt (s.position - 1) { s with marks := s.marks + 1 } =
      (r, m', s')) :
    (r = PRes.ok → RuleOk s (PRes.ok, pop_mark (undo m' s'))) ∧
    (r = PRes.oot → RuleOk s (PRes.oot, s')) ∧
    (r = PRes.ok ∨ r = PRes.oot) := by
  have hcA : Coh { s with marks := s.marks + 1 } := coh_set_marks _ hc
  have hmkA : Marker (s.position - 1) { s with marks := s.marks + 1 } :=
    marker_set_marks _ (marker_of_coh hc)
  have H := rep_loop_ok hatt fuel _ _ r m' s' hcA (by simpa using hm) hmkA hrl
  refine ⟨?_, ?_, H.2.2⟩
  · intro ho
    obtain ⟨hc', hg', hmk'⟩ := H.2.1 ho
    have hmq : s'.marks = s.marks + 1 := hg'.1
    have hm' : 1 ≤ s'.marks := by omega
    obtain ⟨hcu, hgu, hposu, hfutu⟩ := undo_spec hm' hc'.1 hmk'
    have hmu : (undo m' s').marks = s.marks + 1 := by rw [hgu.1, hmq]
    have hppop : pop_mark (undo m' s') =
        { undo m' s' with marks := (undo m' s').marks - 1 } :=
      pop_mark_spec (by omega)
    constructor
    · intro h'
      simp at h'
    · intro _
      rw [hppop]
      refine ⟨coh_set_marks _ hcu, ?_, ?_, ?_⟩
      · show ({ undo m' s' with marks := (undo m' s').marks - 1 } : C1Lexer).marks = s.marks
        simp [hmu]
      · show hist { undo m' s' with marks := (undo m' s').marks - 1 } = hist s
        rw [hist_set_marks, hgu.2.1, hg'.2.1, hist_set_marks]
      · show s.past.length ≤
          ({ undo m' s' with marks := (undo m' s').marks - 1 } : C1Lexer).past.length
        have h1 : s.past.length ≤ s'.past.length := hg'.2.2
        have h2 : s'.past.length ≤ (undo m' s').past.length := hgu.2.2
        simpa using le_trans h1 h2
  · intro ho
    obtain ⟨hp, hml⟩ := H.1 ho
    have hml' : s.marks + 1 ≤ s'.marks := hml
    refine ⟨fun _ => ⟨hp, ?_⟩, fun h' => by simp at h'⟩
    show s.marks ≤ s'.marks
    omega

theorem functioncall_ruleOk {s : C1Lexer} (hc : Coh s) (hm : 1 ≤ s.marks) :
    RuleOk s (functioncall s) := by
  rw [functioncall]
  refine ruleOk_pmapErr (ruleOk_pbind hm (check_ruleOk hc hm) ?_)
  intro s1 hc1 hm1 _
  exact ruleOk_pbind hm1 (check_ruleOk hc1 hm1) (fun s2 hc2 hm2 _ => check_ruleOk hc2 hm2)

theorem p_type_ruleOk {s : C1Lexer} (hc : Coh s) (hm : 1 ≤ s.marks) :
    RuleOk s (p_type s) := by
  rw [p_type]
  exact any_ruleOk hc hm

theorem returnstatement_step {fuel : Nat}
    (ihassign : ∀ s, Coh s → 1 ≤ s.marks → RuleOk s (assignment fuel s)) :
    ∀ s, Coh s → 1 ≤ s.marks → RuleOk s (returnstatement (fuel + 1) s) := by
  intro s hc hm
  rw [returnstatement]
  rcases hck : check_and_eat_token C1Token.kwReturn "Expected \"return\"" s with ⟨rc, sc⟩
  have hckr : RuleOk s
      (check_and_eat_token C1Token.kwReturn "Expected \"return\"" s) :=
    check_ruleOk hc hm
  rw [hck] at hckr
  cases rc with
  | ok =>
    have hne := hckr.2 (by simp)
    have hm1 : 1 ≤ sc.marks := by rw [hne.2.1]; exact hm
    have hia := ihassign sc hne.1 hm1
    rcases ha : assignment fuel sc with ⟨ra, sa⟩
    rw [ha] at hia
    simp only [ha]
    cases ra with
    | ok => exact ruleOk_precomp hne.2 ⟨fun h => by simp at h, fun _ => hia.2 (by simp)⟩
    | fail e =>
      exact ruleOk_precomp hne.2 ⟨fun h => by simp at h, fun _ => hia.2 (by simp)⟩
    | oot => exact ruleOk_precomp hne.2 ⟨fun _ => hia.1 rfl, fun h => absurd rfl h⟩
  | fail e => exact hckr
  | oot => exact hckr

theorem printf_step {fuel : Nat}
    (ihassign : ∀ s, Coh s → 1 ≤ s.marks → RuleOk s (assignment fuel s)) :
    ∀ s, Coh s → 1 ≤ s.marks → RuleOk s (printf (fuel + 1) s) := by
  intro s hc hm
  rw [printf]
  refine ruleOk_pbind hm (check_ruleOk hc hm) ?_
  intro s1 hc1 hm1 _
  refine ruleOk_pbind hm1 (check_ruleOk hc1 hm1) ?_
  intro s2 hc2 hm2 _
  refine ruleOk_pbind hm2 (ihassign s2 hc2 hm2) ?_
  intro s3 hc3 hm3 _
  exact check_ruleOk hc3 hm3

theorem statassignment_step {fuel : Nat}
    (ihassign : ∀ s, Coh s → 1 ≤ s.marks → RuleOk s (assignment fuel s)) :
    ∀ s, Coh s → 1 ≤ s.marks → RuleOk s (statassignment (fuel + 1) s) := by
  intro s hc hm
  rw [statassignment]
  refine ruleOk_pbind hm (check_ruleOk hc hm) ?_
  intro s1 hc1 hm1 _
  refine ruleOk_pbind hm1 (check_ruleOk hc1 hm1) ?_
  intro s2 hc2 hm2 _
  exact ihassign s2 hc2 hm2

theorem ifstatement_step {fuel : Nat}
    (ihassign : ∀ s, Coh s → 1 ≤ s.marks → RuleOk s (assignment fuel s))
    (ihblock : ∀ s, Coh s → 1 ≤ s.marks → RuleOk s (block fuel s)) :
    ∀ s, Coh s → 1 ≤ s.marks → RuleOk s (ifstatement (fuel + 1) s) := by
  intro s hc hm
  rw [ifstatement]
  refine ruleOk_pbind hm (check_ruleOk hc hm) ?_
  intro s1 hc1 hm1 _
  refine ruleOk_pbind hm1 (check_ruleOk hc1 hm1) ?_
  intro s2 hc2 hm2 _
  refine ruleOk_pbind hm2 (ihassign s2 hc2 hm2) ?_
  intro s3 hc3 hm3 _
  refine ruleOk_pbind hm3 (check_ruleOk hc3 hm3) ?_
  intro s4 hc4 hm4 _
  exact ihblock s4 hc4 hm4

theorem ruleOk_ok_pop {s v : C1Lexer} (hc : Coh v)
    (hmv : v.marks = s.marks + 1) (hh : hist v = hist s)
    (hl : s.past.length ≤ v.past.length) :
    RuleOk s (PRes.ok, pop_mark v) := by
  constructor
  · intro h'
    simp at h'
  · intro _
    rw [pop_mark_spec (by omega)]
    refine ⟨coh_set_marks _ hc, ?_, ?_, ?_⟩
    · show v.marks - 1 = s.marks
      omega
    · show hist { v with marks := v.marks - 1 } = hist s
      rw [hist_set_marks]
      exact hh
    · show s.past.length ≤ v.past.length
      exact hl

theorem ruleOk_oot_state {s v : C1Lexer} (hp : v.panicked = false)
    (hml : s.marks ≤ v.marks) : RuleOk s (PRes.oot, v) :=
  ⟨fun _ => ⟨hp, hml⟩, fun h => absurd rfl h⟩

theorem statementlist_step {fuel : Nat}
    (ihblock : ∀ s, Coh s → 1 ≤ s.marks → RuleOk s (block fuel s)) :
    ∀ s, Coh s → 1 ≤ s.marks → RuleOk s (statementlist (fuel + 1) s) := by
  intro s hc hm
  rw [statementlist]
  simp only [mark_spec hm hc.2.1]
  rcases hrl : rep_loop fuel (fun u => block fuel u) (s.position - 1)
      { s with marks := s.marks + 1 } with ⟨r, m', s'⟩
  obtain ⟨hok, hoot, hor⟩ :=
    rep_tail_ok (fun u hcu hmu => ihblock u hcu hmu) hc hm hrl
  rcases hor with h | h
  · subst h
    exact hok rfl
  · subst h
    exact hoot rfl

theorem term_step {fuel : Nat}
    (ihfactor : ∀ s, Coh s → 1 ≤ s.marks → RuleOk s (factor fuel s)) :
    ∀ s, Coh s → 1 ≤ s.marks → RuleOk s (term (fuel + 1) s) := by
  intro s hc hm
  rw [term]
  rcases hf : factor fuel s with ⟨rf, sf⟩
  have hif := ihfactor s hc hm
  rw [hf] at hif
  cases rf with
  | fail e => exact ⟨fun h' => by simp [pmapErr] at h', fun _ => hif.2 (by simp)⟩
  | oot => exact ⟨fun _ => hif.1 rfl, fun h' => by simp [pmapErr] at h'⟩
  | ok =>
    have hne := hif.2 (by simp)
    have hcs : Coh sf := hne.1
    have hms : 1 ≤ sf.marks := by rw [hne.2.1]; exact hm
    simp only [pmapErr, mark_spec hms hcs.2.1]
    rcases hrl : rep_loop fuel
        (fun u => pbind (any_match_and_eat
            [C1Token.asterisk, C1Token.slash, C1Token.opAnd] "" u)
          (fun u => factor fuel u))
        (sf.position - 1) { sf with marks := sf.marks + 1 } with ⟨r, m', s'⟩
    obtain ⟨hok, hoot, hor⟩ :=
      rep_tail_ok (fun u hcu hmu =>
        ruleOk_pbind hmu (any_ruleOk hcu hmu)
          (fun v hcv hmv _ => ihfactor v hcv hmv)) hcs hms hrl
    rcases hor with h | h
    · subst h
      exact ruleOk_precomp hne.2 (hok rfl)
    · subst h
      exact ruleOk_precomp hne.2 (hoot rfl)

theorem simpexpr_step {fuel : Nat}
    (ihterm : ∀ s, Coh s → 1 ≤ s.marks → RuleOk s (term fuel s)) :
    ∀ s, Coh s → 1 ≤ s.marks → RuleOk s (simpexpr (fuel + 1) s) := by
  intro s hc hm
  rw [simpexpr]
  obtain ⟨hcm, hgm⟩ : Coh (check_and_eat_token C1Token.minus "" s).2 ∧
      Grows s (check_and_eat_token C1Token.minus "" s).2 :=
    check_state_ok hc hm
  have hmm : 1 ≤ (check_and_eat_token C1Token.minus "" s).2.marks := by
    rw [hgm.1]; exact hm
  rcases ht : term fuel (check_and_eat_token C1Token.minus "" s).2 with ⟨rt, st⟩
  have hit := ihterm _ hcm hmm
  rw [ht] at hit
  have hit' : RuleOk s (rt, st) := ruleOk_precomp hgm hit
  cases rt with
  | fail e => exact ⟨fun h' => by simp [pmapErr] at h', fun _ => hit'.2 (by simp)⟩
  | oot => exact ⟨fun _ => hit'.1 rfl, fun h' => by simp [pmapErr] at h'⟩
  | ok =>
    have hne := hit'.2 (by simp)
    have hcs : Coh st := hne.1
    have hms : 1 ≤ st.marks := by rw [hne.2.1]; exact hm
    simp only [pmapErr, mark_spec hms hcs.2.1]
    rcases hrl : rep_loop fuel
        (fun u => pbind (any_match_and_eat
            [C1Token.plus, C1Token.minus, C1Token.opOr] "" u)
          (fun u => term fuel u))
        (st.position - 1) { st with marks := st.marks + 1 } with ⟨r, m', s'⟩
    obtain ⟨hok, hoot, hor⟩ :=
      rep_tail_ok (fun u hcu hmu =>
        ruleOk_pbind hmu (any_ruleOk hcu hmu)
          (fun v hcv hmv _ => ihterm v hcv hmv)) hcs hms hrl
    rcases hor with h | h
    · subst h
      exact ruleOk_precomp hne.2 (hok rfl)
    · subst h
      exact ruleOk_precomp hne.2 (hoot rfl)


theorem expr_step {fuel : Nat}
    (ihsimp : ∀ s, Coh s → 1 ≤ s.marks → RuleOk s (simpexpr fuel s)) :
    ∀ s, Coh s → 1 ≤ s.marks → RuleOk s (expr (fuel + 1) s) := by
  intro s hc hm
  rw [expr]
  rcases hse : simpexpr fuel s with ⟨rs, ss⟩
  have his := ihsimp s hc hm
  rw [hse] at his
  cases rs with
  | fail e => exact his
  | oot => exact his
  | ok =>
    have hne := his.2 (by simp)
    have hcs : Coh ss := hne.1
    have hms : 1 ≤ ss.marks := by rw [hne.2.1]; exact hm
    have hmss : ss.marks = s.marks := hne.2.1
    simp only [mark_spec hms hcs.2.1]
    rcases hat : pbind (any_match_and_eat relops ""
        { ss with marks := ss.marks + 1 }) (fun u => simpexpr fuel u) with ⟨ra, sa⟩
    have hcA : Coh { ss with marks := ss.marks + 1 } := coh_set_marks _ hcs
    have hmA : 1 ≤ ({ ss with marks := ss.marks + 1 } : C1Lexer).marks := by simp
    have hatt : RuleOk { ss with marks := ss.marks + 1 } (ra, sa) := by
      rw [← hat]
      exact ruleOk_pbind hmA (any_ruleOk hcA hmA) (fun u hcu hmu _ => ihsimp u hcu hmu)
    cases ra with
    | ok =>
      have hnea := hatt.2 (by simp)
      have hmq : sa.marks = ss.marks + 1 := hnea.2.1
      refine ruleOk_ok_pop hnea.1 (by omega) ?_ ?_
      · rw [hnea.2.2.1, hist_set_marks]
        exact hne.2.2.1
      · have h1 : s.past.length ≤ ss.past.length := hne.2.2.2
        have h2 : ss.past.length ≤ sa.past.length := hnea.2.2.2
        exact le_trans h1 h2
    | oot =>
      have h1 := hatt.1 rfl
      have h2 : ss.marks + 1 ≤ sa.marks := h1.2
      exact ruleOk_oot_state h1.1
        (le_trans (le_of_eq hmss.symm) (le_trans (Nat.le_succ _) h2))
    | fail e =>
      have hnea := hatt.2 (by simp)
      have hmq : sa.marks = ss.marks + 1 := hnea.2.1
      have hmk : Marker (ss.position - 1) sa :=
        marker_grows hnea.2 (marker_set_marks _ (marker_of_coh hcs))
      obtain ⟨hcu, hgu, -, -⟩ := undo_spec (show 1 ≤ sa.marks by omega) hnea.1.1 hmk
      refine ruleOk_ok_pop hcu ?_ ?_ ?_
      · rw [hgu.1, hmq, hmss]
      · rw [hgu.2.1, hnea.2.2.1, hist_set_marks]
        exact hne.2.2.1
      · have h1 : s.past.length ≤ ss.past.length := hne.2.2.2
        have h2 : ss.past.length ≤ sa.past.length := hnea.2.2.2
        exact le_trans (le_trans h1 h2) hgu.2.2

theorem assignment_step {fuel : Nat}
    (ihassign : ∀ s, Coh s → 1 ≤ s.marks → RuleOk s (assignment fuel s))
    (ihexpr : ∀ s, Coh s → 1 ≤ s.marks → RuleOk s (expr fuel s)) :
    ∀ s, Coh s → 1 ≤ s.marks → RuleOk s (assignment (fuel + 1) s) := by
  intro s hc hm
  rw [assignment]
  simp only [mark_spec hm hc.2.1]
  refine ruleOk_markpop hm ?_
  have hcA : Coh { s with marks := s.marks + 1 } := coh_set_marks _ hc
  have hmA : 1 ≤ ({ s with marks := s.marks + 1 } : C1Lexer).marks := by simp
  refine ruleOk_porElse hmA ?_ ?_
  · refine ruleOk_pbind hmA (check_ruleOk hcA hmA) ?_
    intro u hcu hmu _
    refine ruleOk_pbind hmu (check_ruleOk hcu hmu) ?_
    intro v hcv hmv _
    exact ihassign v hcv hmv
  · intro e s' hc' hm' hg'
    have hmk' : Marker (s.position - 1) s' :=
      marker_grows hg' (marker_set_marks _ (marker_of_coh hc))
    exact ruleOk_undo_then hc' hm' hmk' (fun u hcu hmu => ihexpr u hcu hmu)

theorem block_step {fuel : Nat}
    (ihsl : ∀ s, Coh s → 1 ≤ s.marks → RuleOk s (statementlist fuel s))
    (ihstmt : ∀ s, Coh s → 1 ≤ s.marks → RuleOk s (statement fuel s)) :
    ∀ s, Coh s → 1 ≤ s.marks → RuleOk s (block (fuel + 1) s) := by
  intro s hc hm
  rw [block]
  simp only [mark_spec hm hc.2.1]
  refine ruleOk_markpop hm ?_
  have hcA : Coh { s with marks := s.marks + 1 } := coh_set_marks _ hc
  have hmA : 1 ≤ ({ s with marks := s.marks + 1 } : C1Lexer).marks := by simp
  refine ruleOk_porElse hmA ?_ ?_
  · refine ruleOk_pbind hmA (check_ruleOk hcA hmA) ?_
    intro u hcu hmu _
    refine ruleOk_pbind hmu (ihsl u hcu hmu) ?_
    intro v hcv hmv _
    exact check_ruleOk hcv hmv
  · intro e s' hc' hm' hg'
    have hmk' : Marker (s.position - 1) s' :=
      marker_grows hg' (marker_set_marks _ (marker_of_coh hc))
    exact ruleOk_undo_then hc' hm' hmk' (fun u hcu hmu => ihstmt u hcu hmu)

theorem statement_step {fuel : Nat}
    (ihif : ∀ s, Coh s → 1 ≤ s.marks → RuleOk s (ifstatement fuel s))
    (ihret : ∀ s, Coh s → 1 ≤ s.marks → RuleOk s (returnstatement fuel s))
    (ihprintf : ∀ s, Coh s → 1 ≤ s.marks → RuleOk s (printf fuel s))
    (ihstass : ∀ s, Coh s → 1 ≤ s.marks → RuleOk s (statassignment fuel s)) :
    ∀ s, Coh s → 1 ≤ s.marks → RuleOk s (statement (fuel + 1) s) := by
  intro s hc hm
  rw [statement]
  simp only [mark_spec hm hc.2.1]
  refine ruleOk_markpop hm ?_
  have hcA : Coh { s with marks := s.marks + 1 } := coh_set_marks _ hc
  have hmA : 1 ≤ ({ s with marks := s.marks + 1 } : C1Lexer).marks := by simp
  have hmrk : Marker (s.position - 1) { s with marks := s.marks + 1 } :=
    marker_set_marks _ (marker_of_coh hc)
  refine ruleOk_porElse hmA (ruleOk_porElse hmA (ruleOk_porElse hmA
    (ruleOk_porElse hmA (ihif _ hcA hmA) ?_) ?_) ?_) ?_
  · intro e s' hc' hm' hg'
    have hmk' := marker_grows hg' hmrk
    obtain ⟨hcu, hgu, -, -⟩ := undo_spec hm' hc'.1 hmk'
    have hmu2 : 1 ≤ (undo (s.position - 1) s').marks := by rw [hgu.1]; exact hm'
    refine ruleOk_precomp hgu (ruleOk_pbind hmu2 (ihret _ hcu hmu2) ?_)
    intro v hcv hmv _
    exact check_ruleOk hcv hmv
  · intro e s' hc' hm' hg'
    have hmk' := marker_grows hg' hmrk
    obtain ⟨hcu, hgu, -, -⟩ := undo_spec hm' hc'.1 hmk'
    have hmu2 : 1 ≤ (undo (s.position - 1) s').marks := by rw [hgu.1]; exact hm'
    refine ruleOk_precomp hgu (ruleOk_pbind hmu2 (ihprintf _ hcu hmu2) ?_)
    intro v hcv hmv _
    exact check_ruleOk hcv hmv
  · intro e s' hc' hm' hg'
    have hmk' := marker_grows hg' hmrk
    obtain ⟨hcu, hgu, -, -⟩ := undo_spec hm' hc'.1 hmk'
    have hmu2 : 1 ≤ (undo (s.position - 1) s').marks := by rw [hgu.1]; exact hm'
    refine ruleOk_precomp hgu (ruleOk_pbind hmu2 (ihstass _ hcu hmu2) ?_)
    intro v hcv hmv _
    exact check_ruleOk hcv hmv
  · intro e s' hc' hm' hg'
    have hmk' := marker_grows hg' hmrk
    obtain ⟨hcu, hgu, -, -⟩ := undo_spec hm' hc'.1 hmk'
    have hmu2 : 1 ≤ (undo (s.position - 1) s').marks := by rw [hgu.1]; exact hm'
    refine ruleOk_precomp hgu (ruleOk_pbind hmu2 (functioncall_ruleOk hcu hmu2) ?_)
    intro v hcv hmv _
    exact check_ruleOk hcv hmv

theorem factor_step {fuel : Nat}
    (ihassign : ∀ s, Coh s → 1 ≤ s.marks → RuleOk s (assignment fuel s)) :
    ∀ s, Coh s → 1 ≤ s.marks → RuleOk s (factor (fuel + 1) s) := by
  intro s hc hm
  rw [factor]
  simp only [mark_spec hm hc.2.1]
  refine ruleOk_markpop hm ?_
  have hcA : Coh { s with marks := s.marks + 1 } := coh_set_marks _ hc
  have hmA : 1 ≤ ({ s with marks := s.marks + 1 } : C1Lexer).marks := by simp
  have hmrk : Marker (s.position - 1) { s with marks := s.marks + 1 } :=
    marker_set_marks _ (marker_of_coh hc)
  rcases hx : porElse (porElse (porElse (porElse (porElse
      (check_and_eat_token C1Token.constInt "" { s with marks := s.marks + 1 })
      (fun _ u => check_and_eat_token C1Token.constFloat "" (undo (s.position - 1) u)))
      (fun _ u => check_and_eat_token C1Token.constBoolean "" (undo (s.position - 1) u)))
      (fun _ u => functioncall (undo (s.position - 1) u)))
      (fun _ u => check_and_eat_token C1Token.identifier "" (undo (s.position - 1) u)))
      (fun _ u =>
        pbind (check_and_eat_token C1Token.leftParenthesis "Expected <FACTOR>"
            (undo (s.position - 1) u))
          (fun v => pbind (assignment fuel v) (fun w =>
            check_and_eat_token C1Token.rightParenthesis "Expected \x27)\x27" w)))
    with ⟨r, s'⟩
  have hres : RuleOk { s with marks := s.marks + 1 } (r, s') := by
    rw [← hx]
    refine ruleOk_porElse hmA (ruleOk_porElse hmA (ruleOk_porElse hmA
      (ruleOk_porElse hmA (ruleOk_porElse hmA (check_ruleOk hcA hmA) ?_) ?_) ?_) ?_) ?_
    · intro e1 u hc' hm' hg'
      exact ruleOk_undo_then hc' hm' (marker_grows hg' hmrk)
        (fun v hcv hmv => check_ruleOk hcv hmv)
    · intro e1 u hc' hm' hg'
      exact ruleOk_undo_then hc' hm' (marker_grows hg' hmrk)
        (fun v hcv hmv => check_ruleOk hcv hmv)
    · intro e1 u hc' hm' hg'
      exact ruleOk_undo_then hc' hm' (marker_grows hg' hmrk)
        (fun v hcv hmv => functioncall_ruleOk hcv hmv)
    · intro e1 u hc' hm' hg'
      exact ruleOk_undo_then hc' hm' (marker_grows hg' hmrk)
        (fun v hcv hmv => check_ruleOk hcv hmv)
    · intro e1 u hc' hm' hg'
      have hmk' := marker_grows hg' hmrk
      obtain ⟨hcu, hgu, -, -⟩ := undo_spec hm' hc'.1 hmk'
      have hmu2 : 1 ≤ (undo (s.position - 1) u).marks := by rw [hgu.1]; exact hm'
      refine ruleOk_precomp hgu (ruleOk_pbind hmu2 (check_ruleOk hcu hmu2) ?_)
      intro v hcv hmv _
      refine ruleOk_pbind hmv (ihassign v hcv hmv) ?_
      intro w hcw hmw _
      exact check_ruleOk hcw hmw
  cases r with
  | ok => exact hres
  | oot => exact hres
  | fail e =>
    have hne := hres.2 (by simp)
    have hm' : 1 ≤ s'.marks := by rw [hne.2.1]; exact hmA
    obtain ⟨hcu, hgu, -, -⟩ :=
      undo_spec hm' hne.1.1 (marker_grows hne.2 hmrk)
    exact ⟨fun h' => by simp at h', fun _ => ⟨hcu, grows_trans hne.2 hgu⟩⟩

theorem parser_rules_ok : ∀ fuel : Nat,
    (∀ s, Coh s → 1 ≤ s.marks → RuleOk s (statementlist fuel s)) ∧
    (∀ s, Coh s → 1 ≤ s.marks → RuleOk s (block fuel s)) ∧
    (∀ s, Coh s → 1 ≤ s.marks → RuleOk s (statement fuel s)) ∧
    (∀ s, Coh s → 1 ≤ s.marks → RuleOk s (ifstatement fuel s)) ∧
    (∀ s, Coh s → 1 ≤ s.marks → RuleOk s (returnstatement fuel s)) ∧
    (∀ s, Coh s → 1 ≤ s.marks → RuleOk s (printf fuel s)) ∧
    (∀ s, Coh s → 1 ≤ s.marks → RuleOk s (statassignment fuel s)) ∧
    (∀ s, Coh s → 1 ≤ s.marks → RuleOk s (assignment fuel s)) ∧
    (∀ s, Coh s → 1 ≤ s.marks → RuleOk s (expr fuel s)) ∧
    (∀ s, Coh s → 1 ≤ s.marks → RuleOk s (simpexpr fuel s)) ∧
    (∀ s, Coh s → 1 ≤ s.marks → RuleOk s (term fuel s)) ∧
    (∀ s, Coh s → 1 ≤ s.marks → RuleOk s (factor fuel s)) := by
  intro fuel
  induction fuel with
  | zero =>
    refine ⟨?_, ?_, ?_, ?_, ?_, ?_, ?_, ?_, ?_, ?_, ?_, ?_⟩
    · intro s hc hm; rw [statementlist]; exact ruleOk_oot hc
    · intro s hc hm; rw [block]; exact ruleOk_oot hc
    · intro s hc hm; rw [statement]; exact ruleOk_oot hc
    · intro s hc hm; rw [ifstatement]; exact ruleOk_oot hc
    · intro s hc hm; rw [returnstatement]; exact ruleOk_oot hc
    · intro s hc hm; rw [printf]; exact ruleOk_oot hc
    · intro s hc hm; rw [statassignment]; exact ruleOk_oot hc
    · intro s hc hm; rw [assignment]; exact ruleOk_oot hc
    · intro s hc hm; rw [expr]; exact ruleOk_oot hc
    · intro s hc hm; rw [simpexpr]; exact ruleOk_oot hc
    · intro s hc hm; rw [term]; exact ruleOk_oot hc
    · intro s hc hm; rw [factor]; exact ruleOk_oot hc
  | succ fuel ih =>
    obtain ⟨ihsl, ihblock, ihstmt, ihif, ihret, ihprintf, ihstass, ihassign,
      ihexpr, ihsimp, ihterm, ihfactor⟩ := ih
    exact ⟨statementlist_step ihblock, block_step ihsl ihstmt,
      statement_step ihif ihret ihprintf ihstass,
      ifstatement_step ihassign ihblock, returnstatement_step ihassign,
      printf_step ihassign, statassignment_step ihassign,
      assignment_step ihassign ihexpr, expr_step ihsimp,
      simpexpr_step ihterm, term_step ihfactor, factor_step ihassign⟩

theorem block_ruleOk {fuel : Nat} {s : C1Lexer} (hc : Coh s) (hm : 1 ≤ s.marks) :
    RuleOk s (block fuel s) := (parser_rules_ok fuel).2.1 s hc hm

theorem statementlist_ruleOk {fuel : Nat} {s : C1Lexer} (hc : Coh s)
    (hm : 1 ≤ s.marks) : RuleOk s (statementlist fuel s) :=
  (parser_rules_ok fuel).1 s hc hm

theorem assignment_ruleOk {fuel : Nat} {s : C1Lexer} (hc : Coh s)
    (hm : 1 ≤ s.marks) : RuleOk s (assignment fuel s) :=
  (parser_rules_ok fuel).2.2.2.2.2.2.2.1 s hc hm

theorem simpexpr_ruleOk {fuel : Nat} {s : C1Lexer} (hc : Coh s)
    (hm : 1 ≤ s.marks) : RuleOk s (simpexpr fuel s) :=
  (parser_rules_ok fuel).2.2.2.2.2.2.2.2.2.1 s hc hm

theorem term_ruleOk {fuel : Nat} {s : C1Lexer} (hc : Coh s)
    (hm : 1 ≤ s.marks) : RuleOk s (term fuel s) :=
  (parser_rules_ok fuel).2.2.2.2.2.2.2.2.2.2.1 s hc hm

theorem factor_ruleOk {fuel : Nat} {s : C1Lexer} (hc : Coh s)
    (hm : 1 ≤ s.marks) : RuleOk s (factor fuel s) :=
  (parser_rules_ok fuel).2.2.2.2.2.2.2.2.2.2.2 s hc hm

theorem future_pop (s : C1Lexer) : future (pop_mark s) = future s := rfl

theorem rep_loop_exit {att : C1Lexer → PRes × C1Lexer}
    (hatt : ∀ s', Coh s' → 1 ≤ s'.marks → RuleOk s' (att s')) :
    ∀ (fuel m : Nat) (s : C1Lexer) (r : PRes) (m' : Nat) (s₂ : C1Lexer),
      Coh s → 1 ≤ s.marks → m = s.position - 1 →
      rep_loop fuel att m s = (r, m', s₂) →
      (r = PRes.ok ∨ r = PRes.oot) ∧
      (r = PRes.ok → ∃ u e, Coh u ∧ 1 ≤ u.marks ∧ m' = u.position - 1 ∧
        att u = (PRes.fail e, s₂) ∧ future (undo m' s₂) = future u) := by
  intro fuel
  induction fuel with
  | zero =>
    intro m s r m' s₂ hc hm hmp heq
    rw [rep_loop] at heq
    rcases heq
    exact ⟨Or.inr rfl, fun h => by simp at h⟩
  | succ fuel ih =>
    intro m s r m' s₂ hc hm hmp heq
    rw [rep_loop] at heq
    rcases hat : att s with ⟨ra, sa⟩
    rw [hat] at heq
    have hra := hatt s hc (by omega)
    rw [hat] at hra
    cases ra with
    | ok =>
      have hne : Coh sa ∧ Grows s sa := hra.2 (by simp)
      have hmsa : sa.marks = s.marks := hne.2.1
      have hm1 : 1 ≤ sa.marks := by omega
      have heq2 : (match mark (pop_mark sa) with
          | (m2, s3) => rep_loop fuel att m2 s3) = (r, m', s₂) := heq
      rw [pop_mark_spec hm1] at heq2
      rcases Nat.lt_or_ge 1 sa.marks with h2 | h2
      · have hm2 : 1 ≤ sa.marks - 1 := by omega
        rw [mark_spec (by simpa using hm2) (by simpa using hne.1.2.1)] at heq2
        have heq3 : rep_loop fuel att (sa.position - 1)
            { sa with marks := sa.marks - 1 + 1 } = (r, m', s₂) := heq2
        have hc3 : Coh { sa with marks := sa.marks - 1 + 1 } := coh_set_marks _ hne.1
        exact ih _ _ r m' s₂ hc3 (by simp) (by simp) heq3
      · have hms1 : sa.marks = 1 := by omega
        have hst : ({ sa with marks := sa.marks - 1 } : C1Lexer) =
            { sa with marks := 0 } := by rw [hms1]
        rw [hst] at heq2
        rcases hcur : sa.current_token with _ | t
        · have hmkeq : mark { sa with marks := 0 } =
              (sa.position - 1, { sa with marks := 1 }) :=
            mark_from_zero_none rfl hcur hne.1.2.1
          have hself : ({ sa with marks := 1 } : C1Lexer) = sa := by
            rw [← hms1]
          have heq3 : rep_loop fuel att (sa.position - 1) { sa with marks := 1 } =
              (r, m', s₂) := by
            rw [hmkeq] at heq2
            exact heq2
          rw [hself] at heq3
          exact ih _ sa r m' s₂ hne.1 (by omega) rfl heq3
        · have hmkeq : mark { sa with marks := 0 } =
              (0, { sa with marks := 1, past := [t], position := 1 }) :=
            mark_from_zero_some rfl hcur hne.1.1
          have heq3 : rep_loop fuel att 0
              { sa with marks := 1, past := [t], position := 1 } = (r, m', s₂) := by
            rw [hmkeq] at heq2
            exact heq2
          refine ih 0 { sa with marks := 1, past := [t], position := 1 } r m' s₂
            ?_ (by simp) (by simp) heq3
          refine ⟨hne.1.1, by simp, by simp, ?_, ?_⟩
          · intro h'
            simp [hcur]
          · intro h'
            simp at h'
    | oot =>
      rcases heq
      exact ⟨Or.inr rfl, fun h => by simp at h⟩
    | fail e =>
      rcases heq
      have hne := hra.2 (by simp)
      refine ⟨Or.inl rfl, fun _ => ⟨s, e, hc, by omega, hmp, hat, ?_⟩⟩
      have hmks : Marker m s := by rw [hmp]; exact marker_of_coh hc
      have hm2 : 1 ≤ s₂.marks := by rw [hne.2.1]; omega
      obtain ⟨-, -, -, hfut⟩ := undo_spec hm2 hne.1.1 (marker_grows hne.2 hmks)
      rw [hfut, hne.2.2.1, hmp, ← future_eq_hist_drop hc]

theorem statementlist_no_fail {fuel : Nat} {s : C1Lexer} (hc : Coh s)
    (hm : 1 ≤ s.marks) :
    (statementlist fuel s).1 = PRes.ok ∨ (statementlist fuel s).1 = PRes.oot := by
  cases fuel with
  | zero => rw [statementlist]; exact Or.inr rfl
  | succ fuel =>
    rw [statementlist]
    simp only [mark_spec hm hc.2.1]
    rcases hrl : rep_loop fuel (fun u => block fuel u) (s.position - 1)
        { s with marks := s.marks + 1 } with ⟨r, m', s'⟩
    have H := rep_loop_exit (fun u hcu hmu => block_ruleOk hcu hmu) fuel _ _ r m' s'
      (coh_set_marks _ hc) (by simp) (by simp) hrl
    rcases H.1 with h | h <;> subst h
    · exact Or.inl rfl
    · exact Or.inr rfl

/-- C1 amended: the three "optional" sites behave differently.  The
optional unary minus in `simpexpr` is a bare `check_and_eat_token` whose
failure leaves the lexer untouched; `expr` never fails because of its
optional relop tail (a failure of `expr` is a failure of the mandatory
`simpexpr`), and when the attempted tail fails the mark is undone so the
whole `expr` succeeds with the cursor restored to the state right after
the first `simpexpr`; the optional `assignment` in `returnstatement` is
attempted without any mark, so `returnstatement` indeed never fails once
`"return"` is eaten, but nothing restores the cursor (the attempt's
partial consumption is kept, as the recorded counterexample shows). -/
theorem optional_combinator_amended (fuel : Nat) (s s₁ : C1Lexer)
    (hc : Coh s) (hm : 1 ≤ s.marks) :
    (current_matches C1Token.minus s = false →
      (check_and_eat_token C1Token.minus "" s).2 = s) ∧
    (∀ e, (expr (fuel + 1) s).1 = PRes.fail e → (simpexpr fuel s).1 = PRes.fail e) ∧
    (simpexpr fuel s = (PRes.ok, s₁) →
      ∀ e s₂, pbind (any_match_and_eat relops "" (mark s₁).2)
          (fun u => simpexpr fuel u) = (PRes.fail e, s₂) →
      (expr (fuel + 1) s).1 = PRes.ok ∧ future (expr (fuel + 1) s).2 = future s₁) ∧
    ((check_and_eat_token C1Token.kwReturn "Expected \"return\"" s).1 = PRes.ok →
      ∀ e, (returnstatement (fuel + 1) s).1 ≠ PRes.fail e) := by
  refine ⟨?_, ?_, ?_, ?_⟩
  · intro hnm
    rcases check_and_eat_cases C1Token.minus "" s with ⟨hmt, -⟩ | ⟨-, e, h⟩
    · rw [hnm] at hmt
      cases hmt
    · rw [h]
  · intro e hfe
    rw [expr] at hfe
    rcases hs : simpexpr fuel s with ⟨rs, ss⟩
    rw [hs] at hfe
    cases rs with
    | fail e1 =>
      have : e1 = e := by simpa using hfe
      simp [this]
    | ok =>
      exfalso
      rcases hmk : mark ss with ⟨m2, A2⟩
      rcases ht : pbind (any_match_and_eat relops "" A2) (fun v => simpexpr fuel v)
        with ⟨rt, st⟩
      simp only [hmk, ht] at hfe
      cases rt <;> simp at hfe
    | oot => simp at hfe
  · intro hok e s₂ he
    have hrs : RuleOk s (simpexpr fuel s) := simpexpr_ruleOk hc hm
    rw [hok] at hrs
    have hne := hrs.2 (by simp)
    have hc1 : Coh s₁ := hne.1
    have hm1 : 1 ≤ s₁.marks := by rw [hne.2.1]; exact hm
    have hmkeq : mark s₁ = (s₁.position - 1, { s₁ with marks := s₁.marks + 1 }) :=
      mark_spec hm1 hc1.2.1
    have he' : pbind (any_match_and_eat relops "" { s₁ with marks := s₁.marks + 1 })
        (fun u => simpexpr fuel u) = (PRes.fail e, s₂) := by
      rw [hmkeq] at he
      exact he
    have htail := ruleOk_pbind (x := any_match_and_eat relops ""
        { s₁ with marks := s₁.marks + 1 }) (g := fun u => simpexpr fuel u)
      (by simp : 1 ≤ ({ s₁ with marks := s₁.marks + 1 } : C1Lexer).marks)
      (any_ruleOk (coh_set_marks _ hc1) (by simp))
      (fun v hcv hmv _ => simpexpr_ruleOk hcv hmv)
    rw [he'] at htail
    have hnet := htail.2 (by simp)
    have hexpr : expr (fuel + 1) s =
        (PRes.ok, pop_mark (undo (s₁.position - 1) s₂)) := by
      rw [expr, hok]
      simp only [hmkeq, he']
    rw [hexpr]
    refine ⟨rfl, ?_⟩
    have hmks : Marker (s₁.position - 1) s₂ :=
      marker_grows hnet.2 (marker_set_marks _ (marker_of_coh hc1))
    have hm2 : 1 ≤ s₂.marks := by
      have : s₂.marks = s₁.marks + 1 := hnet.2.1
      omega
    obtain ⟨-, -, -, hfut⟩ := undo_spec hm2 hnet.1.1 hmks
    show future (pop_mark (undo (s₁.position - 1) s₂)) = future s₁
    rw [future_pop, hfut, hnet.2.2.1, hist_set_marks, ← future_eq_hist_drop hc1]
  · intro hok e
    rw [returnstatement]
    rcases hck : check_and_eat_token C1Token.kwReturn "Expected \"return\"" s
      with ⟨rc, sc⟩
    rw [hck] at hok
    cases rc with
    | ok =>
      rcases ha : assignment fuel sc with ⟨ra, sa⟩
      cases ra <;> simp [ha]
    | fail e1 => simp at hok
    | oot => simp at hok

/-- Witness for `optional_combinator_amended` on the tokens of
`"return -;"` with one open mark: the failed optional minus leaves the
lexer unchanged. -/
theorem optional_combinator_amended_witness :
    Coh (mark (C1Lexer.new (tokenizeStr "return -;"))).2 ∧
    1 ≤ (mark (C1Lexer.new (tokenizeStr "return -;"))).2.marks ∧
    (current_matches C1Token.minus (mark (C1Lexer.new (tokenizeStr "return -;"))).2 =
        false →
      (check_and_eat_token C1Token.minus ""
          (mark (C1Lexer.new (tokenizeStr "return -;"))).2).2 =
        (mark (C1Lexer.new (tokenizeStr "return -;"))).2) :=
  ⟨by decide, by decide,
    (optional_combinator_amended 3 _ (mark (C1Lexer.new (tokenizeStr "return -;"))).2
      (by decide) (by decide)).1⟩

/-- C2 amended: of the ordered-alternation rules only `factor` rewinds on
failure.  `factor`'s failure exit does `undo` to the entry mark, so a
failing `factor` hands back a lexer whose observable token sequence (and
open-mark count) equals the one at entry, for any number of tokens the
alternatives consumed; `statement`, `block` and `assignment` pop their
mark but leave the cursor wherever the last alternative stopped, as the
recorded counterexample shows. -/
theorem factor_failure_restores (fuel : Nat) (s : C1Lexer)
    (hc : Coh s) (hm : 1 ≤ s.marks) :
    ∀ e s₂, factor fuel s = (PRes.fail e, s₂) →
      future s₂ = future s ∧ s₂.marks = s.marks := by
  intro e s₂ hfe
  cases fuel with
  | zero =>
    rw [factor] at hfe
    simp at hfe
  | succ fuel =>
    rw [factor] at hfe
    simp only [mark_spec hm hc.2.1] at hfe
    have hcA : Coh { s with marks := s.marks + 1 } := coh_set_marks _ hc
    have hmA : 1 ≤ ({ s with marks := s.marks + 1 } : C1Lexer).marks := by simp
    have hmrk : Marker (s.position - 1) { s with marks := s.marks + 1 } :=
      marker_set_marks _ (marker_of_coh hc)
    rcases hx : porElse (porElse (porElse (porElse (porElse
        (check_and_eat_token C1Token.constInt "" { s with marks := s.marks + 1 })
        (fun _ u => check_and_eat_token C1Token.constFloat "" (undo (s.position - 1) u)))
        (fun _ u => check_and_eat_token C1Token.constBoolean "" (undo (s.position - 1) u)))
        (fun _ u => functioncall (undo (s.position - 1) u)))
        (fun _ u => check_and_eat_token C1Token.identifier "" (undo (s.position - 1) u)))
        (fun _ u =>
          pbind (check_and_eat_token C1Token.leftParenthesis "Expected <FACTOR>"
              (undo (s.position - 1) u))
            (fun v => pbind (assignment fuel v) (fun w =>
              check_and_eat_token C1Token.rightParenthesis "Expected \x27)\x27" w)))
      with ⟨r, s'⟩
    rw [hx] at hfe
    have hres : RuleOk { s with marks := s.marks + 1 } (r, s') := by
      rw [← hx]
      refine ruleOk_porElse hmA (ruleOk_porElse hmA (ruleOk_porElse hmA
        (ruleOk_porElse hmA (ruleOk_porElse hmA (check_ruleOk hcA hmA) ?_) ?_) ?_) ?_) ?_
      · intro e1 u hc' hm' hg'
        exact ruleOk_undo_then hc' hm' (marker_grows hg' hmrk)
          (fun v hcv hmv => check_ruleOk hcv hmv)
      · intro e1 u hc' hm' hg'
        exact ruleOk_undo_then hc' hm' (marker_grows hg' hmrk)
          (fun v hcv hmv => check_ruleOk hcv hmv)
      · intro e1 u hc' hm' hg'
        exact ruleOk_undo_then hc' hm' (marker_grows hg' hmrk)
          (fun v hcv hmv => functioncall_ruleOk hcv hmv)
      · intro e1 u hc' hm' hg'
        exact ruleOk_undo_then hc' hm' (marker_grows hg' hmrk)
          (fun v hcv hmv => check_ruleOk hcv hmv)
      · intro e1 u hc' hm' hg'
        have hmk' := marker_grows hg' hmrk
        obtain ⟨hcu, hgu, -, -⟩ := undo_spec hm' hc'.1 hmk'
        have hmu2 : 1 ≤ (undo (s.position - 1) u).marks := by rw [hgu.1]; exact hm'
        refine ruleOk_precomp hgu (ruleOk_pbind hmu2 (check_ruleOk hcu hmu2) ?_)
        intro v hcv hmv _
        refine ruleOk_pbind hmv (assignment_ruleOk hcv hmv) ?_
        intro w hcw hmw _
        exact check_ruleOk hcw hmw
    cases r with
    | ok => simp at hfe
    | oot => simp at hfe
    | fail e1 =>
      have hne := hres.2 (by simp)
      obtain ⟨-, hs2⟩ : e1 = e ∧ pop_mark (undo (s.position - 1) s') = s₂ := by
        simpa using hfe
      have hm' : 1 ≤ s'.marks := by rw [hne.2.1]; simp
      obtain ⟨-, hgu, -, hfut⟩ :=
        undo_spec hm' hne.1.1 (marker_grows hne.2 hmrk)
      subst hs2
      constructor
      · rw [future_pop, hfut, hne.2.2.1, hist_set_marks, ← future_eq_hist_drop hc]
      · rw [pop_mark_spec (by rw [hgu.1]; exact hm')]
        show (undo (s.position - 1) s').marks - 1 = s.marks
        rw [hgu.1]
        have : s'.marks = s.marks + 1 := hne.2.1
        omega

/-- Witness for `factor_failure_restores` on the tokens of `";"` with
one open mark: `factor` fails (the current token starts no alternative)
and the theorem applies. -/
theorem factor_failure_restores_witness :
    Coh (mark (C1Lexer.new (tokenizeStr ";"))).2 ∧
    1 ≤ (mark (C1Lexer.new (tokenizeStr ";"))).2.marks ∧
    (factor 1 (mark (C1Lexer.new (tokenizeStr ";"))).2).1 ≠ PRes.oot ∧
    (∀ e s₂, factor 1 (mark (C1Lexer.new (tokenizeStr ";"))).2 = (PRes.fail e, s₂) →
      future s₂ = future (mark (C1Lexer.new (tokenizeStr ";"))).2 ∧
        s₂.marks = (mark (C1Lexer.new (tokenizeStr ";"))).2.marks) :=
  ⟨by decide, by decide, by decide,
    factor_failure_restores 1 _ (by decide) (by decide)⟩

theorem advance_mk0_nil {s : C1Lexer} (hmk : s.marks = 0) (hpast : s.past = []) :
    (∀ td rest, emitAll s.logos_line_number s.upstream = td :: rest →
      ∃ up' line', advance s = { s with upstream := up', logos_line_number := line',
                                        position := 0, current_token := some td } ∧
        emitAll line' up' = rest) ∧
    (emitAll s.logos_line_number s.upstream = [] →
      ∃ line', advance s = { s with upstream := [], logos_line_number := line',
                                    position := 1, current_token := none }) := by
  constructor
  · intro td rest he
    obtain ⟨up', line', hpull, hrest⟩ := pull_of_emit_cons he
    refine ⟨up', line', ?_, hrest⟩
    rw [advance, if_pos (by rw [hpast]; simp)]
    rw [next_token_lexer, hpull]
    simp only [if_neg (by omega : ¬ 0 < s.marks)]
    have : ¬ (s.marks = 0 ∧ s.past.length ≤ s.past.length ∧ s.past.length ≠ 0) := by
      rintro ⟨-, -, h0⟩
      rw [hpast] at h0
      simp at h0
    simp only [if_neg this]
    rw [hpast]
    rfl
  · intro he
    obtain ⟨line', hpull⟩ := pull_of_emit_nil he
    refine ⟨line', ?_⟩
    rw [advance, if_pos (by rw [hpast]; simp)]
    rw [next_token_lexer, hpull]
    have : ¬ (s.marks = 0 ∧ s.past.length ≤ s.past.length + 1 ∧ s.past.length ≠ 0) := by
      rintro ⟨-, -, h0⟩
      rw [hpast] at h0
      simp at h0
    simp only [if_neg this]
    rw [hpast]
    rfl

theorem advance_mk0_release {s : C1Lexer} (hmk : s.marks = 0)
    (hlen : s.past.length ≠ 0) (hp : s.past.length ≤ s.position) :
    (∀ td rest, emitAll s.logos_line_number s.upstream = td :: rest →
      ∃ up' line', advance s = { s with upstream := up', logos_line_number := line',
                                        past := [], position := 0,
                                        current_token := some td } ∧
        emitAll line' up' = rest) ∧
    (emitAll s.logos_line_number s.upstream = [] →
      ∃ line', advance s = { s with upstream := [], logos_line_number := line',
                                    past := [], position := 0,
                                    current_token := none }) := by
  constructor
  · intro td rest he
    obtain ⟨up', line', hpull, hrest⟩ := pull_of_emit_cons he
    refine ⟨up', line', ?_, hrest⟩
    rw [advance, if_pos hp]
    rw [next_token_lexer, hpull]
    simp only [if_neg (by omega : ¬ 0 < s.marks)]
    have : (s.marks = 0 ∧ s.past.length ≤ s.past.length ∧ s.past.length ≠ 0) :=
      ⟨hmk, le_refl _, hlen⟩
    simp only [if_pos this]
  · intro he
    obtain ⟨line', hpull⟩ := pull_of_emit_nil he
    refine ⟨line', ?_⟩
    rw [advance, if_pos hp]
    rw [next_token_lexer, hpull]
    have : (s.marks = 0 ∧ s.past.length ≤ s.past.length + 1 ∧ s.past.length ≠ 0) :=
      ⟨hmk, by omega, hlen⟩
    simp only [if_pos this]

theorem topA_advance {s : C1Lexer} (hpan : s.panicked = false)
    (hmk : s.marks = 0) (hpast : s.past = []) : TopA (advance s) := by
  rcases he : emitAll s.logos_line_number s.upstream with _ | ⟨td, rest⟩
  · obtain ⟨line', hadv⟩ := (advance_mk0_nil hmk hpast).2 he
    rw [hadv]
    exact ⟨hpan, hmk, hpast, Or.inr ⟨rfl, rfl, by simp [emitAll]⟩⟩
  · obtain ⟨up', line', hadv, -⟩ := (advance_mk0_nil hmk hpast).1 td rest he
    rw [hadv]
    exact ⟨hpan, hmk, hpast, Or.inl ⟨rfl, by simp⟩⟩

theorem topB_advance_release {s : C1Lexer} (hpan : s.panicked = false)
    (hmk : s.marks = 0) (hlen : s.past.length ≠ 0) (hp : s.past.length ≤ s.position) :
    TopB (advance s) := by
  rcases he : emitAll s.logos_line_number s.upstream with _ | ⟨td, rest⟩
  · obtain ⟨line', hadv⟩ := (advance_mk0_release hmk hlen hp).2 he
    rw [hadv]
    exact Or.inr ⟨hpan, hmk, rfl, rfl, rfl, by simp [emitAll]⟩
  · obtain ⟨up', line', hadv, -⟩ := (advance_mk0_release hmk hlen hp).1 td rest he
    rw [hadv]
    exact Or.inl ⟨hpan, hmk, rfl, Or.inl ⟨rfl, by simp⟩⟩

theorem new_topA (up : List RawTok) : TopA (C1Lexer.new up) :=
  topA_advance rfl rfl rfl

theorem topA_pan {s : C1Lexer} (h : TopA s) : s.panicked = false := h.1

theorem topB_pan {s : C1Lexer} (h : TopB s) : s.panicked = false := by
  rcases h with h | h
  · exact h.1
  · exact h.1

theorem topB_mk {s : C1Lexer} (h : TopB s) : s.marks = 0 := by
  rcases h with h | h
  · exact h.2.1
  · exact h.2.1

theorem topB_none_future {s : C1Lexer} (h : TopB s)
    (hcur : s.current_token = none) : future s = [] := by
  rcases h with ⟨-, -, hpast, hsh⟩ | ⟨-, -, hpast, -, -, hemit⟩
  · rcases hsh with ⟨-, hne⟩ | ⟨-, -, hemit⟩
    · exact absurd hcur hne
    · simp [future, hcur, hpast, hemit]
  · simp [future, hcur, hpast, hemit]

theorem cur_of_type {s : C1Lexer} {c : C1Token} (h : currentTokenType s = some c) :
    ∃ td, s.current_token = some td ∧ td.token_type = c := by
  rw [currentTokenType] at h
  cases hcur : s.current_token with
  | none => rw [hcur] at h; simp at h
  | some td =>
    rw [hcur] at h
    simp at h
    exact ⟨td, rfl, h⟩

theorem coh_pos_le {s : C1Lexer} (hc : Coh s) (h : s.current_token ≠ none) :
    s.position ≤ s.past.length := by
  by_contra hlt
  have hpos : s.position = s.past.length + 1 := by
    have := hc.2.2.1
    omega
  exact h (hc.2.2.2.2 hpos).1

theorem check_fail_of_type (t : C1Token) (reason : String) {s : C1Lexer}
    {c : C1Token} (h : currentTokenType s = some c) (hne : c ≠ t) :
    ∃ e, check_and_eat_token t reason s = (PRes.fail e, s) := by
  rcases check_and_eat_cases t reason s with ⟨hmt, -⟩ | ⟨-, e, heq⟩
  · exfalso
    rw [current_matches, h] at hmt
    simp at hmt
    exact hne hmt
  · exact ⟨e, heq⟩

theorem undo_self {s : C1Lexer} (hm : 1 ≤ s.marks) (hc : Coh s)
    (hle : s.position ≤ s.past.length) : undo (s.position - 1) s = s := by
  have hp1 : 1 ≤ s.position := hc.2.1
  have h1 : s.position - 1 < s.past.length := by omega
  have hcur := hc.2.2.2.1 hle
  rw [undo, advance_replay (s := { s with position := s.position - 1 }) hm
    (by simpa using h1)]
  rcases s with ⟨up, ln, cur, past, mk, pos, pan⟩
  simp only [] at hcur hp1 h1
  simp [C1Lexer.mk.injEq, hcur]
  omega

theorem statement_rbrace {f : Nat} {A : C1Lexer} (hc : Coh A) (hm : 1 ≤ A.marks)
    (ht : currentTokenType A = some C1Token.rightBrace) :
    (statement f A).2.past = A.past := by
  cases f with
  | zero => rw [statement]
  | succ f =>
    rw [statement]
    simp only [mark_spec hm hc.2.1]
    have hc2 : Coh { A with marks := A.marks + 1 } := coh_set_marks _ hc
    have hm2 : 1 ≤ ({ A with marks := A.marks + 1 } : C1Lexer).marks := by simp
    have ht2 : currentTokenType { A with marks := A.marks + 1 } =
        some C1Token.rightBrace := ht
    obtain ⟨td, hcur, -⟩ := cur_of_type ht
    have hle2 : ({ A with marks := A.marks + 1 } : C1Lexer).position ≤
        ({ A with marks := A.marks + 1 } : C1Lexer).past.length := by
      have := coh_pos_le hc (by rw [hcur]; simp)
      simpa using this
    have hundo : undo (A.position - 1) { A with marks := A.marks + 1 } =
        { A with marks := A.marks + 1 } := undo_self hm2 hc2 hle2
    cases f with
    | zero =>
      rw [ifstatement]
      simp only [pbind, porElse]
      rfl
    | succ f =>
      obtain ⟨e1, hck1⟩ :=
        check_fail_of_type C1Token.kwIf "Expected \"if\"" ht2 (by decide)
      obtain ⟨e2, hck2⟩ :=
        check_fail_of_type C1Token.kwReturn "Expected \"return\"" ht2 (by decide)
      obtain ⟨e3, hck3⟩ :=
        check_fail_of_type C1Token.kwPrintf "Expected \"printf\"" ht2 (by decide)
      obtain ⟨e4, hck4⟩ :=
        check_fail_of_type C1Token.identifier "Expected <ID>" ht2 (by decide)
      rw [ifstatement, hck1]
      simp only [pbind, porElse]
      rw [hundo, returnstatement, hck2]
      simp only [pbind, porElse]
      rw [hundo, printf, hck3]
      simp only [pbind, porElse]
      rw [hundo, statassignment, hck4]
      simp only [pbind, porElse]
      rw [hundo, functioncall, hck4]
      simp only [pbind, porElse, pmapErr]
      rfl

theorem block_rbrace {f : Nat} {u : C1Lexer} (hc : Coh u) (hm : 1 ≤ u.marks)
    (ht : currentTokenType u = some C1Token.rightBrace) :
    (block f u).2.past = u.past := by
  cases f with
  | zero => rw [block]
  | succ f =>
    rw [block]
    simp only [mark_spec hm hc.2.1]
    have hc2 : Coh { u with marks := u.marks + 1 } := coh_set_marks _ hc
    have hm2 : 1 ≤ ({ u with marks := u.marks + 1 } : C1Lexer).marks := by simp
    have ht2 : currentTokenType { u with marks := u.marks + 1 } =
        some C1Token.rightBrace := ht
    obtain ⟨td, hcur, -⟩ := cur_of_type ht
    have hle2 : ({ u with marks := u.marks + 1 } : C1Lexer).position ≤
        ({ u with marks := u.marks + 1 } : C1Lexer).past.length := by
      have := coh_pos_le hc (by rw [hcur]; simp)
      simpa using this
    have hundo : undo (u.position - 1) { u with marks := u.marks + 1 } =
        { u with marks := u.marks + 1 } := undo_self hm2 hc2 hle2
    obtain ⟨e0, hck0⟩ :=
      check_fail_of_type C1Token.leftBrace "Expected \"\x7b\"" ht2 (by decide)
    rw [hck0]
    simp only [pbind, porElse]
    rw [hundo]
    exact statement_rbrace hc2 hm2 ht2

theorem past_prefix_of_grows {a b : C1Lexer} (hh : hist b = hist a)
    (hl : a.past.length ≤ b.past.length) : a.past <+: b.past := by
  have h1 : a.past <+: hist a := ⟨emitAll a.logos_line_number a.upstream, rfl⟩
  have h2 : b.past <+: hist a := by
    rw [← hh]
    exact ⟨emitAll b.logos_line_number b.upstream, rfl⟩
  exact List.prefix_of_prefix_length_le h1 h2 hl

theorem getD_of_prefix {l₁ l₂ : List TokenData} (h : l₁ <+: l₂) {i : Nat}
    (hi : i < l₁.length) : l₂.getD i dummyTok = l₁.getD i dummyTok := by
  obtain ⟨t, rfl⟩ := h
  rw [getD_eq_getElem' (by rw [List.length_append]; omega), getD_eq_getElem' hi]
  exact List.getElem_append_left hi

theorem past_eq_of_grows_emit_nil {a b : C1Lexer} (hh : hist b = hist a)
    (hl : a.past.length ≤ b.past.length)
    (he : emitAll a.logos_line_number a.upstream = []) :
    b.past = a.past ∧ emitAll b.logos_line_number b.upstream = [] := by
  have hlen : b.past.length + (emitAll b.logos_line_number b.upstream).length =
      a.past.length := by
    have h := congrArg List.length hh
    simp only [hist, List.length_append, he, List.length_nil, Nat.add_zero] at h
    exact h
  have hbe : (emitAll b.logos_line_number b.upstream).length = 0 := by omega
  have hble : b.past.length = a.past.length := by omega
  refine ⟨?_, emitAll_length_eq_zero hbe⟩
  exact ((past_prefix_of_grows hh hl).eq_of_length hble.symm).symm

theorem coh_cur_none_pos {s : C1Lexer} (hc : Coh s)
    (hcur : s.current_token = none) : s.position = s.past.length + 1 := by
  by_contra h
  have hle : s.position ≤ s.past.length := by
    have := hc.2.2.1
    omega
  have := hc.2.2.2.1 hle
  rw [hcur] at this
  cases this

theorem rep_loop_top {bf : Nat} : ∀ (fuel m : Nat) (u : C1Lexer) (r : PRes)
    (m' : Nat) (s₂ : C1Lexer),
    Coh u → u.marks = 1 → m = u.position - 1 →
    ((u.position = 1 ∧ u.past.length ≤ 1) ∨ u.current_token = none) →
    rep_loop fuel (fun v => block bf v) m u = (r, m', s₂) →
    (r = PRes.ok ∨ r = PRes.oot) ∧
    (r = PRes.oot → s₂.panicked = false) ∧
    (r = PRes.ok → PostSL (pop_mark (undo m' s₂))) := by
  intro fuel
  induction fuel with
  | zero =>
    intro m u r m' s₂ hc hm1 hmp hsh heq
    rw [rep_loop] at heq
    rcases heq
    exact ⟨Or.inr rfl, fun _ => hc.1, fun h => by simp at h⟩
  | succ fuel ih =>
    intro m u r m' s₂ hc hm1 hmp hsh heq
    rw [rep_loop] at heq
    rcases hb : block bf u with ⟨rb, s₁⟩
    rw [hb] at heq
    have hrb : RuleOk u (block bf u) := block_ruleOk hc (by omega)
    rw [hb] at hrb
    cases rb with
    | oot =>
      rcases heq
      exact ⟨Or.inr rfl, fun _ => (hrb.1 rfl).1, fun h => by simp at h⟩
    | ok =>
      have hne : Coh s₁ ∧ Grows u s₁ := hrb.2 (by simp)
      have hc1 : Coh s₁ := hne.1
      have hm1' : s₁.marks = 1 := by rw [hne.2.1, hm1]
      have heqA : (match mark (pop_mark s₁) with
          | (m2, s3) => rep_loop fuel (fun v => block bf v) m2 s3) = (r, m', s₂) := heq
      have hpop : pop_mark s₁ = { s₁ with marks := 0 } := by
        rw [pop_mark_spec (by omega)]
        rw [hm1']
      rw [hpop] at heqA
      rcases hcur1 : s₁.current_token with _ | t
      · have hmkeq : mark { s₁ with marks := 0 } =
            (s₁.position - 1, { s₁ with marks := 1 }) :=
          mark_from_zero_none rfl hcur1 hc1.2.1
        have hself : ({ s₁ with marks := 1 } : C1Lexer) = s₁ := by
          rw [← hm1']
        have heq2 : rep_loop fuel (fun v => block bf v) (s₁.position - 1)
            { s₁ with marks := 1 } = (r, m', s₂) := by
          rw [hmkeq] at heqA
          exact heqA
        rw [hself] at heq2
        exact ih _ s₁ r m' s₂ hc1 hm1' rfl (Or.inr hcur1) heq2
      · have hmkeq : mark { s₁ with marks := 0 } =
            (0, { s₁ with marks := 1, past := [t], position := 1 }) :=
          mark_from_zero_some rfl hcur1 hc1.1
        have heq2 : rep_loop fuel (fun v => block bf v) 0
            { s₁ with marks := 1, past := [t], position := 1 } = (r, m', s₂) := by
          rw [hmkeq] at heqA
          exact heqA
        refine ih 0 { s₁ with marks := 1, past := [t], position := 1 } r m' s₂
          ?_ rfl (by simp) (Or.inl ⟨by simp, by simp⟩) heq2
        refine ⟨hc1.1, by simp, by simp, ?_, ?_⟩
        · intro h
          simp [hcur1]
        · intro h
          simp at h
    | fail e =>
      rcases heq
      have hne : Coh s₂ ∧ Grows u s₂ := hrb.2 (by simp)
      have hc1 : Coh s₂ := hne.1
      have hm1' : s₂.marks = 1 := by rw [hne.2.1, hm1]
      refine ⟨Or.inl rfl, fun h => by simp at h, fun _ => ?_⟩
      rcases hsh with ⟨hpos1, hlen1⟩ | hcn
      · have hm0 : m = 0 := by rw [hmp, hpos1]
        subst hm0
        rcases Nat.eq_zero_or_pos s₂.past.length with hlz | hlp
        · have hpast1 : s₂.past = [] := List.eq_nil_of_length_eq_zero hlz
          have hlu : u.past.length = 0 := by
            have := hne.2.2.2
            omega
          have hpastu : u.past = [] := List.eq_nil_of_length_eq_zero hlu
          have hposu : u.position = u.past.length + 1 := by rw [hlu, hpos1]
          have heu : emitAll u.logos_line_number u.upstream = [] :=
            (hc.2.2.2.2 hposu).2
          have hhu : hist u = [] := by rw [hist, hpastu, heu]; rfl
          have hh1 : hist s₂ = [] := by rw [hne.2.2.1, hhu]
          have he1 : emitAll s₂.logos_line_number s₂.upstream = [] := by
            rw [hist, hpast1] at hh1
            simpa using hh1
          obtain ⟨ln', hadv⟩ := advance_pull_none
            (s := { s₂ with position := 0 }) (by simp [hm1'])
            (by simpa using hlz.le) (by simpa using he1)
          have hv : undo 0 s₂ = { s₂ with upstream := [], logos_line_number := ln',
                                          position := s₂.past.length + 1,
                                          current_token := none } := by
            rw [undo]
            exact hadv
          rw [hv, pop_mark_spec (by simp [hm1'])]
          refine ⟨hc1.1, by simp [hm1'], Or.inr ⟨by simp, rfl, by simp [emitAll]⟩⟩
        · have hv : undo 0 s₂ = { s₂ with position := 1,
                                          current_token :=
                                            some (s₂.past.getD 0 dummyTok) } := by
            rw [undo, advance_replay (s := { s₂ with position := 0 })
              (by simp [hm1']) (by simpa using hlp)]
          rw [hv, pop_mark_spec (by simp [hm1'])]
          refine ⟨hc1.1, by simp [hm1'],
            Or.inl ⟨by simp, by simpa using hlp, by simp, ?_⟩⟩
          intro htb
          show s₂.past.length = 1
          have htb' : (s₂.past.getD 0 dummyTok).token_type = C1Token.rightBrace := htb
          have hlu1 : u.past.length = 1 := by
            rcases Nat.eq_zero_or_pos u.past.length with h0 | h1
            · exfalso
              have hpastu : u.past = [] := List.eq_nil_of_length_eq_zero h0
              have hposu : u.position = u.past.length + 1 := by rw [h0, hpos1]
              have heu : emitAll u.logos_line_number u.upstream = [] :=
                (hc.2.2.2.2 hposu).2
              have hhu : hist u = [] := by rw [hist, hpastu, heu]; rfl
              have hh1 : hist s₂ = [] := by rw [hne.2.2.1, hhu]
              rw [hist] at hh1
              have : s₂.past = [] := by
                rcases List.append_eq_nil.mp hh1 with ⟨h, -⟩
                exact h
              rw [this] at hlp
              simp at hlp
            · omega
          have hcuru : u.current_token = some (u.past.getD 0 dummyTok) := by
            have := hc.2.2.2.1 (by omega)
            simpa [hpos1] using this
          have hpref : u.past <+: s₂.past :=
            past_prefix_of_grows hne.2.2.1 hne.2.2.2
          have hg0 : s₂.past.getD 0 dummyTok = u.past.getD 0 dummyTok :=
            getD_of_prefix hpref (by omega)
          have htu : currentTokenType u = some C1Token.rightBrace := by
            rw [currentTokenType, hcuru]
            simp only [Option.map_some']
            rw [← hg0]
            rw [htb']
          have hpb := block_rbrace (f := bf) hc (by omega) htu
          rw [hb] at hpb
          have : s₂.past.length = u.past.length := by rw [hpb]
          omega
      · have hposu : u.position = u.past.length + 1 := coh_cur_none_pos hc hcn
        have heu : emitAll u.logos_line_number u.upstream = [] :=
          (hc.2.2.2.2 hposu).2
        obtain ⟨hp1, he1⟩ := past_eq_of_grows_emit_nil hne.2.2.1 hne.2.2.2 heu
        have hmlen : m = s₂.past.length := by
          rw [hmp, hposu, hp1]
          simp
        obtain ⟨ln', hadv⟩ := advance_pull_none
          (s := { s₂ with position := m }) (by simp [hm1'])
          (by simpa using hmlen.ge) (by simpa using he1)
        have hv : undo m s₂ = { s₂ with upstream := [], logos_line_number := ln',
                                        position := s₂.past.length + 1,
                                        current_token := none } := by
          rw [undo]
          exact hadv
        rw [hv, pop_mark_spec (by simp [hm1'])]
        refine ⟨hc1.1, by simp [hm1'], Or.inr ⟨by simp, rfl, by simp [emitAll]⟩⟩

theorem statementlist_topA (fuel : Nat) {s : C1Lexer} (h : TopA s) :
    ((statementlist fuel s).1 = PRes.oot → (statementlist fuel s).2.panicked = false) ∧
    ((statementlist fuel s).1 = PRes.ok → PostSL (statementlist fuel s).2) ∧
    ((statementlist fuel s).1 = PRes.ok ∨ (statementlist fuel s).1 = PRes.oot) := by
  obtain ⟨hpan, hmk, hpast, hsh⟩ := h
  cases fuel with
  | zero =>
    rw [statementlist]
    exact ⟨fun _ => hpan, fun h' => by simp at h', Or.inr rfl⟩
  | succ fuel =>
    rcases hsh with ⟨hpos0, hcne⟩ | ⟨hpos1, hcn, hemit⟩
    · rcases hcur : s.current_token with _ | t
      · exact absurd hcur hcne
      · have hmkeq : mark s = (0, { s with marks := 1, past := [t], position := 1 }) :=
          mark_from_zero_some hmk hcur hpan
        have hsl : statementlist (Nat.succ fuel) s =
            (match rep_loop fuel (fun v => block fuel v) 0
                { s with marks := 1, past := [t], position := 1 } with
              | (PRes.ok, m', s') => (PRes.ok, pop_mark (undo m' s'))
              | (r, _, s') => (r, s')) := by
          rw [statementlist, hmkeq]
        rcases hrl : rep_loop fuel (fun v => block fuel v) 0
            { s with marks := 1, past := [t], position := 1 } with ⟨r, m', s₂⟩
        rw [hrl] at hsl
        have hcA : Coh { s with marks := 1, past := [t], position := 1 } := by
          refine ⟨hpan, by simp, by simp, ?_, ?_⟩
          · intro h'
            simp [hcur]
          · intro h'
            simp at h'
        have H := rep_loop_top fuel 0 _ r m' s₂ hcA rfl (by simp)
          (Or.inl ⟨by simp, by simp⟩) hrl
        rcases H.1 with hr | hr <;> subst hr
        · have hsl2 : statementlist (Nat.succ fuel) s =
              (PRes.ok, pop_mark (undo m' s₂)) := hsl
          rw [hsl2]
          exact ⟨fun h' => by simp at h', fun _ => H.2.2 rfl, Or.inl rfl⟩
        · have hsl2 : statementlist (Nat.succ fuel) s = (PRes.oot, s₂) := hsl
          rw [hsl2]
          exact ⟨fun _ => H.2.1 rfl, fun h' => by simp at h', Or.inr rfl⟩
    · have hmkeq : mark s = (0, { s with marks := 1 }) := by
        have := mark_from_zero_none hmk hcn (by omega)
        simpa [hpos1] using this
      have hsl : statementlist (Nat.succ fuel) s =
          (match rep_loop fuel (fun v => block fuel v) 0
              { s with marks := 1 } with
            | (PRes.ok, m', s') => (PRes.ok, pop_mark (undo m' s'))
            | (r, _, s') => (r, s')) := by
        rw [statementlist, hmkeq]
      rcases hrl : rep_loop fuel (fun v => block fuel v) 0
          { s with marks := 1 } with ⟨r, m', s₂⟩
      rw [hrl] at hsl
      have hcA : Coh { s with marks := 1 } := by
        refine ⟨hpan, by simp [hpos1], by simp [hpast, hpos1], ?_, ?_⟩
        · intro h'
          exfalso
          simp [hpast, hpos1] at h'
        · intro h'
          exact ⟨hcn, hemit⟩
      have H := rep_loop_top fuel 0 _ r m' s₂ hcA rfl (by simp [hpos1])
        (Or.inr hcn) hrl
      rcases H.1 with hr | hr <;> subst hr
      · have hsl2 : statementlist (Nat.succ fuel) s =
            (PRes.ok, pop_mark (undo m' s₂)) := hsl
        rw [hsl2]
        exact ⟨fun h' => by simp at h', fun _ => H.2.2 rfl, Or.inl rfl⟩
      · have hsl2 : statementlist (Nat.succ fuel) s = (PRes.oot, s₂) := hsl
        rw [hsl2]
        exact ⟨fun _ => H.2.1 rfl, fun h' => by simp at h', Or.inr rfl⟩

theorem check_topA (t : C1Token) (reason : String) {s : C1Lexer} (h : TopA s) :
    ((check_and_eat_token t reason s).1 ≠ PRes.oot) ∧
    ((check_and_eat_token t reason s).1 = PRes.ok →
      TopA (check_and_eat_token t reason s).2) ∧
    (∀ e, (check_and_eat_token t reason s).1 = PRes.fail e →
      (check_and_eat_token t reason s).2 = s) := by
  rcases check_and_eat_cases t reason s with ⟨hmt, heq⟩ | ⟨hmt, e, heq⟩
  · rw [heq]
    exact ⟨by simp, fun _ => topA_advance h.1 h.2.1 h.2.2.1,
      fun e h' => by simp at h'⟩
  · rw [heq]
    exact ⟨by simp, fun h' => by simp at h', fun e' h' => rfl⟩

theorem any_topA (toks : List C1Token) (reason : String) {s : C1Lexer}
    (h : TopA s) :
    ((any_match_and_eat toks reason s).1 ≠ PRes.oot) ∧
    ((any_match_and_eat toks reason s).1 = PRes.ok →
      TopA (any_match_and_eat toks reason s).2) ∧
    (∀ e, (any_match_and_eat toks reason s).1 = PRes.fail e →
      (any_match_and_eat toks reason s).2 = s) := by
  rcases any_match_and_eat_cases toks reason s with heq | ⟨e, heq⟩
  · rw [heq]
    exact ⟨by simp, fun _ => topA_advance h.1 h.2.1 h.2.2.1,
      fun e h' => by simp at h'⟩
  · rw [heq]
    exact ⟨by simp, fun h' => by simp at h', fun e' h' => rfl⟩

theorem check_rbrace_post (reason : String) {s : C1Lexer} (h : PostSL s) :
    ((check_and_eat_token C1Token.rightBrace reason s).1 ≠ PRes.oot) ∧
    ((check_and_eat_token C1Token.rightBrace reason s).1 = PRes.ok →
      TopB (check_and_eat_token C1Token.rightBrace reason s).2) ∧
    (∀ e, (check_and_eat_token C1Token.rightBrace reason s).1 = PRes.fail e →
      (check_and_eat_token C1Token.rightBrace reason s).2 = s) := by
  obtain ⟨hpan, hmk, hsh⟩ := h
  rcases check_and_eat_cases C1Token.rightBrace reason s with ⟨hmt, heq⟩ | ⟨-, e, heq⟩
  · rw [heq]
    refine ⟨by simp, fun _ => ?_, fun e h' => by simp at h'⟩
    rcases hsh with ⟨hpos1, hlen, hcur, hcond⟩ | ⟨hpos, hcn, hemit⟩
    · have htype : (s.past.getD 0 dummyTok).token_type = C1Token.rightBrace := by
        rw [current_matches, currentTokenType, hcur] at hmt
        simpa using hmt
      have hlen1 := hcond htype
      exact topB_advance_release hpan hmk (by omega) (by omega)
    · exfalso
      rw [current_matches, currentTokenType, hcn] at hmt
      simp at hmt
  · rw [heq]
    exact ⟨by simp, fun h' => by simp at h', fun e' h' => rfl⟩

theorem function_definition_top (fuel : Nat) {s : C1Lexer} (h : TopA s) :
    ((function_definition fuel s).1 = PRes.oot →
      (function_definition fuel s).2.panicked = false) ∧
    ((function_definition fuel s).1 = PRes.ok →
      TopB (function_definition fuel s).2) ∧
    (∀ e, (function_definition fuel s).1 = PRes.fail e →
      (function_definition fuel s).2.panicked = false ∧
        (function_definition fuel s).2.marks = 0) := by
  cases fuel with
  | zero =>
    rw [function_definition]
    exact ⟨fun _ => h.1, fun h' => by simp at h', fun e h' => by simp at h'⟩
  | succ fuel =>
    rw [function_definition, p_type]
    rcases h1 : any_match_and_eat
        [C1Token.kwBoolean, C1Token.kwFloat, C1Token.kwInt, C1Token.kwVoid]
        "Expected type" s with ⟨r1, s1⟩
    have H1 := any_topA
      [C1Token.kwBoolean, C1Token.kwFloat, C1Token.kwInt, C1Token.kwVoid]
      "Expected type" h
    rw [h1] at H1
    cases r1 with
    | oot => exact absurd rfl H1.1
    | fail e1 =>
      simp only [pbind, pmapErr]
      refine ⟨fun h' => by simp at h', fun h' => by simp at h', fun e' h' => ?_⟩
      have hu : s1 = s := H1.2.2 e1 rfl
      rw [hu]
      exact ⟨h.1, h.2.1⟩
    | ok =>
      have hA1 : TopA s1 := H1.2.1 rfl
      simp only [pbind]
      rcases h2 : check_and_eat_token C1Token.identifier "Expected function name" s1
        with ⟨r2, s2⟩
      have H2 := check_topA C1Token.identifier "Expected function name" hA1
      rw [h2] at H2
      cases r2 with
      | oot => exact absurd rfl H2.1
      | fail e2 =>
        simp only [pbind, pmapErr]
        refine ⟨fun h' => by simp at h', fun h' => by simp at h', fun e' h' => ?_⟩
        have hu : s2 = s1 := H2.2.2 e2 rfl
        rw [hu]
        exact ⟨hA1.1, hA1.2.1⟩
      | ok =>
        have hA2 : TopA s2 := H2.2.1 rfl
        simp only [pbind]
        rcases h3 : check_and_eat_token C1Token.leftParenthesis "Expected \"(\"" s2
          with ⟨r3, s3⟩
        have H3 := check_topA C1Token.leftParenthesis "Expected \"(\"" hA2
        rw [h3] at H3
        cases r3 with
        | oot => exact absurd rfl H3.1
        | fail e3 =>
          simp only [pbind, pmapErr]
          refine ⟨fun h' => by simp at h', fun h' => by simp at h', fun e' h' => ?_⟩
          have hu : s3 = s2 := H3.2.2 e3 rfl
          rw [hu]
          exact ⟨hA2.1, hA2.2.1⟩
        | ok =>
          have hA3 : TopA s3 := H3.2.1 rfl
          simp only [pbind]
          rcases h4 : check_and_eat_token C1Token.rightParenthesis "Expected \")\"" s3
            with ⟨r4, s4⟩
          have H4 := check_topA C1Token.rightParenthesis "Expected \")\"" hA3
          rw [h4] at H4
          cases r4 with
          | oot => exact absurd rfl H4.1
          | fail e4 =>
            simp only [pbind, pmapErr]
            refine ⟨fun h' => by simp at h', fun h' => by simp at h',
              fun e' h' => ?_⟩
            have hu : s4 = s3 := H4.2.2 e4 rfl
            rw [hu]
            exact ⟨hA3.1, hA3.2.1⟩
          | ok =>
            have hA4 : TopA s4 := H4.2.1 rfl
            simp only [pbind]
            rcases h5 : check_and_eat_token C1Token.leftBrace "Expected \"\x7b\"" s4
              with ⟨r5, s5⟩
            have H5 := check_topA C1Token.leftBrace "Expected \"\x7b\"" hA4
            rw [h5] at H5
            cases r5 with
            | oot => exact absurd rfl H5.1
            | fail e5 =>
              simp only [pbind, pmapErr]
              refine ⟨fun h' => by simp at h', fun h' => by simp at h',
                fun e' h' => ?_⟩
              have hu : s5 = s4 := H5.2.2 e5 rfl
              rw [hu]
              exact ⟨hA4.1, hA4.2.1⟩
            | ok =>
              have hA5 : TopA s5 := H5.2.1 rfl
              simp only [pbind]
              rcases h6 : statementlist fuel s5 with ⟨r6, s6⟩
              have H6 := statementlist_topA fuel hA5
              rw [h6] at H6
              cases r6 with
              | fail e6 =>
                exfalso
                rcases H6.2.2 with h' | h' <;> simp at h'
              | oot =>
                simp only [pbind, pmapErr]
                exact ⟨fun _ => H6.1 rfl, fun h' => by simp at h',
                  fun e' h' => by simp at h'⟩
              | ok =>
                have hP6 : PostSL s6 := H6.2.1 rfl
                simp only [pbind]
                rcases h7 : check_and_eat_token C1Token.rightBrace
                    "Expected \"\x7d\"" s6 with ⟨r7, s7⟩
                have H7 := check_rbrace_post "Expected \"\x7d\"" hP6
                rw [h7] at H7
                cases r7 with
                | oot => exact absurd rfl H7.1
                | fail e7 =>
                  simp only [pmapErr]
                  refine ⟨fun h' => by simp at h', fun h' => by simp at h',
                    fun e' h' => ?_⟩
                  have hu : s7 = s6 := H7.2.2 e7 rfl
                  rw [hu]
                  exact ⟨hP6.1, hP6.2.1⟩
                | ok =>
                  have hB7 : TopB s7 := H7.2.1 rfl
                  simp only [pmapErr]
                  exact ⟨fun h' => by simp at h', fun _ => hB7,
                    fun e' h' => by simp at h'⟩

theorem program_top : ∀ (fuel : Nat) (s : C1Lexer), TopB s →
    ((program fuel s).1 = PRes.oot → (program fuel s).2.panicked = false) ∧
    ((program fuel s).1 = PRes.ok → TopB (program fuel s).2 ∧
      (program fuel s).2.current_token = none) ∧
    (∀ e, (program fuel s).1 = PRes.fail e →
      (program fuel s).2.panicked = false ∧ (program fuel s).2.marks = 0) := by
  intro fuel
  induction fuel with
  | zero =>
    intro s hB
    rw [program]
    exact ⟨fun _ => topB_pan hB, fun h' => by simp at h', fun e h' => by simp at h'⟩
  | succ fuel ih =>
    intro s hB
    rw [program]
    rcases hcur : currentTokenType s with _ | c
    · refine ⟨fun h' => by simp at h', fun _ => ⟨hB, ?_⟩, fun e h' => by simp at h'⟩
      rw [currentTokenType] at hcur
      exact Option.map_eq_none.mp hcur
    · have hA : TopA s := by
        rcases hB with hA | ⟨-, -, -, -, hcn, -⟩
        · exact hA
        · rw [currentTokenType, hcn] at hcur
          simp at hcur
      rcases hf : function_definition fuel s with ⟨rf, sf⟩
      have HF := function_definition_top fuel hA
      rw [hf] at HF
      cases rf with
      | oot =>
        exact ⟨fun _ => HF.1 rfl, fun h' => by simp at h', fun e h' => by simp at h'⟩
      | fail e =>
        exact ⟨fun h' => by simp at h', fun h' => by simp at h',
          fun e' h' => by
            have := HF.2.2 e rfl
            simpa using this⟩
      | ok =>
        have hB' : TopB sf := HF.2.1 rfl
        exact ih sf hB'

/-- C10: no execution of `C1Parser::parse` reaches a panic of the partial
operations: for every fuel and every input text, the final lexer state is
unpanicked — the two `usize` subtractions (`position - 1` in `mark`,
`marks -= 1` in `pop_mark`) never underflow and the two `unwrap`s in the
diagnostic formatting never see `None` (the embedding records any such
event in the `panicked` flag, which stays `false`). -/
theorem parse_never_panics (fuel : Nat) (text : String) :
    (parse fuel text).2.panicked = false := by
  have H := program_top fuel (C1Lexer.new (tokenizeStr text)) (Or.inl (new_topA _))
  rw [parse]
  cases hr : (program fuel (C1Lexer.new (tokenizeStr text))).1 with
  | ok => exact topB_pan (H.2.1 hr).1
  | fail e => exact (H.2.2 e hr).1
  | oot => exact H.1 hr

/-- C9: `C1Parser::parse` reports success only when the whole token
stream has been consumed: on an `Ok` outcome the current token is `None`
and the observable token sequence from the final state is empty (nothing
remains buffered or in the logos stream). -/
theorem parse_ok_consumes_all (fuel : Nat) (text : String)
    (h : (parse fuel text).1 = PRes.ok) :
    (parse fuel text).2.current_token = none ∧ future (parse fuel text).2 = [] := by
  have H := program_top fuel (C1Lexer.new (tokenizeStr text)) (Or.inl (new_topA _))
  rw [parse] at h ⊢
  obtain ⟨hB, hcn⟩ := H.2.1 h
  exact ⟨hcn, topB_none_future hB hcn⟩

/-- Witness for `parse_ok_consumes_all`: the empty input parses
successfully and the theorem applies to it. -/
theorem parse_ok_consumes_all_witness :
    (parse 1 "").1 = PRes.ok ∧ ((parse 1 "").2.current_token = none ∧
      future (parse 1 "").2 = []) :=
  ⟨by decide, parse_ok_consumes_all 1 "" (by decide)⟩

/-- C5: checkpoints are balanced.  In the speculative regime every
recognizer rule returning a source result (`Ok` or `Err`, not fuel
exhaustion) hands back exactly the entry open-mark count — shown here for
`statementlist` and `factor`, the rules the claim cites, the general fact
being the `Grows` half of `RuleOk` proved for all fourteen rules — and
the top-level `parse` always returns with zero open marks. -/
theorem mark_balance (fuel : Nat) (s : C1Lexer) (text : String)
    (hc : Coh s) (hm : 1 ≤ s.marks) :
    ((statementlist fuel s).1 ≠ PRes.oot →
      (statementlist fuel s).2.marks = s.marks) ∧
    ((factor fuel s).1 ≠ PRes.oot → (factor fuel s).2.marks = s.marks) ∧
    ((parse fuel text).1 ≠ PRes.oot → (parse fuel text).2.marks = 0) := by
  refine ⟨?_, ?_, ?_⟩
  · intro hno
    exact ((statementlist_ruleOk hc hm).2 hno).2.1
  · intro hno
    exact ((factor_ruleOk hc hm).2 hno).2.1
  · intro hno
    have H := program_top fuel (C1Lexer.new (tokenizeStr text)) (Or.inl (new_topA _))
    rw [parse] at hno ⊢
    cases hr : (program fuel (C1Lexer.new (tokenizeStr text))).1 with
    | ok => exact topB_mk (H.2.1 hr).1
    | fail e => exact (H.2.2 e hr).2
    | oot => exact absurd hr hno

/-- Witness for `mark_balance` on the tokens of `"x"` with one open
mark, and the empty input at top level. -/
theorem mark_balance_witness :
    Coh (mark (C1Lexer.new (tokenizeStr "x"))).2 ∧
    1 ≤ (mark (C1Lexer.new (tokenizeStr "x"))).2.marks ∧
    ((statementlist 3 (mark (C1Lexer.new (tokenizeStr "x"))).2).1 ≠ PRes.oot →
      (statementlist 3 (mark (C1Lexer.new (tokenizeStr "x"))).2).2.marks =
        (mark (C1Lexer.new (tokenizeStr "x"))).2.marks) ∧
    ((parse 3 "").1 ≠ PRes.oot → (parse 3 "").2.marks = 0) :=
  ⟨by decide, by decide,
    (mark_balance 3 (mark (C1Lexer.new (tokenizeStr "x"))).2 "" (by decide)
      (by decide)).1,
    (mark_balance 3 (mark (C1Lexer.new (tokenizeStr "x"))).2 "" (by decide)
      (by decide)).2.2⟩

/-- C4: every zero-or-more repetition (the `while let Ok` loop of
`statementlist` over `block`, and the operator loops of `simpexpr` over
`term` and of `term` over `factor`) takes a fresh mark before each
iteration attempt, pops it after a successful iteration, and on the first
failing attempt stops after rewinding the cursor exactly to the
checkpoint taken before that attempt (the restored observable token
sequence equals the one at the attempt's start); the repetition itself
only ever reports success (or runs out of fuel), in particular after zero
iterations.  The loop contract covers every open-mark count the loop runs
at, including the single-mark regime of a `statementlist` invoked from
`function_definition`, where each `pop_mark`/`mark` pair passes through
zero and reseeds the buffer; the second conjunct states that invocation
itself, from the open-mark-count-zero entry state. -/
theorem repetition_discipline (fuel m : Nat) (s u : C1Lexer)
    (hc : Coh s) (hm : 1 ≤ s.marks) (hmp : m = s.position - 1)
    (hu : TopA u) :
    ((statementlist fuel s).1 = PRes.ok ∨ (statementlist fuel s).1 = PRes.oot) ∧
    ((statementlist fuel u).1 = PRes.ok ∨ (statementlist fuel u).1 = PRes.oot) ∧
    (∀ r m' s₂, rep_loop fuel (fun v => block fuel v) m s = (r, m', s₂) →
      (r = PRes.ok ∨ r = PRes.oot) ∧
      (r = PRes.ok → ∃ w e, Coh w ∧ m' = w.position - 1 ∧
        block fuel w = (PRes.fail e, s₂) ∧ future (undo m' s₂) = future w)) ∧
    (∀ r m' s₂, rep_loop fuel (fun v =>
        pbind (any_match_and_eat [C1Token.plus, C1Token.minus, C1Token.opOr] "" v)
          (fun v => term fuel v)) m s = (r, m', s₂) →
      (r = PRes.ok ∨ r = PRes.oot) ∧
      (r = PRes.ok → ∃ w e, Coh w ∧ m' = w.position - 1 ∧
        pbind (any_match_and_eat [C1Token.plus, C1Token.minus, C1Token.opOr] "" w)
          (fun v => term fuel v) = (PRes.fail e, s₂) ∧
        future (undo m' s₂) = future w)) ∧
    (∀ r m' s₂, rep_loop fuel (fun v =>
        pbind (any_match_and_eat [C1Token.asterisk, C1Token.slash, C1Token.opAnd] "" v)
          (fun v => factor fuel v)) m s = (r, m', s₂) →
      (r = PRes.ok ∨ r = PRes.oot) ∧
      (r = PRes.ok → ∃ w e, Coh w ∧ m' = w.position - 1 ∧
        pbind (any_match_and_eat [C1Token.asterisk, C1Token.slash, C1Token.opAnd] "" w)
          (fun v => factor fuel v) = (PRes.fail e, s₂) ∧
        future (undo m' s₂) = future w)) := by
  refine ⟨statementlist_no_fail hc hm, (statementlist_topA fuel hu).2.2, ?_, ?_, ?_⟩
  · intro r m' s₂ heq
    have H := rep_loop_exit (fun v hcv hmv => block_ruleOk hcv hmv)
      fuel m s r m' s₂ hc hm hmp heq
    refine ⟨H.1, fun h => ?_⟩
    obtain ⟨w, e, hcw, -, hpe, hae, hfw⟩ := H.2 h
    exact ⟨w, e, hcw, hpe, hae, hfw⟩
  · intro r m' s₂ heq
    have H := rep_loop_exit (fun v hcv hmv =>
      ruleOk_pbind hmv (any_ruleOk hcv hmv)
        (fun w hcw hmw _ => term_ruleOk hcw hmw))
      fuel m s r m' s₂ hc hm hmp heq
    refine ⟨H.1, fun h => ?_⟩
    obtain ⟨w, e, hcw, -, hpe, hae, hfw⟩ := H.2 h
    exact ⟨w, e, hcw, hpe, hae, hfw⟩
  · intro r m' s₂ heq
    have H := rep_loop_exit (fun v hcv hmv =>
      ruleOk_pbind hmv (any_ruleOk hcv hmv)
        (fun w hcw hmw _ => factor_ruleOk hcw hmw))
      fuel m s r m' s₂ hc hm hmp heq
    refine ⟨H.1, fun h => ?_⟩
    obtain ⟨w, e, hcw, -, hpe, hae, hfw⟩ := H.2 h
    exact ⟨w, e, hcw, hpe, hae, hfw⟩

/-- Witness for `repetition_discipline`: on the tokens of `"x = 1 ;"`,
once with a single open mark (the regime of a top-level `statementlist`
loop) and once from the open-mark-count-zero entry state itself. -/
theorem repetition_discipline_witness :
    Coh (mark (C1Lexer.new (tokenizeStr "x = 1 ;"))).2 ∧
    1 ≤ (mark (C1Lexer.new (tokenizeStr "x = 1 ;"))).2.marks ∧
    TopA (C1Lexer.new (tokenizeStr "x = 1 ;")) ∧
    ((statementlist 5 (mark (C1Lexer.new (tokenizeStr "x = 1 ;"))).2).1 = PRes.ok ∨
      (statementlist 5 (mark (C1Lexer.new (tokenizeStr "x = 1 ;"))).2).1 =
        PRes.oot) ∧
    ((statementlist 5 (C1Lexer.new (tokenizeStr "x = 1 ;"))).1 = PRes.ok ∨
      (statementlist 5 (C1Lexer.new (tokenizeStr "x = 1 ;"))).1 = PRes.oot) :=
  ⟨by decide, by decide, by decide,
    (repetition_discipline 5 ((mark (C1Lexer.new (tokenizeStr "x = 1 ;"))).2.position - 1)
      (mark (C1Lexer.new (tokenizeStr "x = 1 ;"))).2
      (C1Lexer.new (tokenizeStr "x = 1 ;"))
      (by decide) (by decide) rfl (by decide)).1,
    (repetition_discipline 5 ((mark (C1Lexer.new (tokenizeStr "x = 1 ;"))).2.position - 1)
      (mark (C1Lexer.new (tokenizeStr "x = 1 ;"))).2
      (C1Lexer.new (tokenizeStr "x = 1 ;"))
      (by decide) (by decide) rfl (by decide)).2.1⟩
